import Mathlib

/-!
Verification of the core logic of sign_virt_apex.py: a shallow embedding of its
dictionary manipulation, task scheduling, process-environment handling, AVB info
parsing, consistency checking, embedded digest patching and tool-version
validation, together with theorems about each component.
-/

set_option autoImplicit false

namespace SignVirtApex

/-- Error values standing for the Python exceptions the script can raise. -/
inductive Err where
  | assertionError (msg : String)
  | keyError (key : String)
  | typeError
  | valueError (msg : String)
  | indexError
  | attributeError
  | stopIteration
  | exception (msg : String)
deriving DecidableEq, Repr

/-- Association list standing for a Python dict with string keys
(insertion order is kept, as in Python 3.7+). -/
abbrev PyDict (α : Type) : Type := List (String × α)

/-- Python dict lookup d[k] (first binding; dicts built below never repeat a key). -/
def dlookup {α : Type} : PyDict α → String → Option α
  | [], _ => none
  | (k, v) :: rest, key => if k = key then some v else dlookup rest key

/-- Python dict assignment d[k] = v: overwrites in place keeping the original
position of the key, appends at the end otherwise. -/
def dinsert {α : Type} : PyDict α → String → α → PyDict α
  | [], key, v => [(key, v)]
  | (k, w) :: rest, key, v =>
    if k = key then (key, v) :: rest else (k, w) :: dinsert rest key v

/-- Removal of a key (the side effect of Python dict.pop / del). -/
def derase {α : Type} : PyDict α → String → PyDict α
  | [], _ => []
  | (k, v) :: rest, key =>
    if k = key then derase rest key else (k, v) :: derase rest key

/-- The keys of a dict, in order. -/
def dkeys {α : Type} (d : PyDict α) : List String := d.map Prod.fst

/-- Python dict equality, comparing values with the given test: the two dicts
must have the same key set and matching values for every key. -/
def dictEqBy {α : Type} (veq : α → α → Bool) (a b : PyDict α) : Bool :=
  a.all (fun p => match dlookup b p.1 with | some w => veq p.2 w | none => false) &&
  b.all (fun p => match dlookup a p.1 with | some w => veq w p.2 | none => false)

/-- The keys of a dict are pairwise distinct (true of every real Python dict). -/
def NodupKeys {α : Type} (d : PyDict α) : Prop := (dkeys d).Nodup

instance {α : Type} (d : PyDict α) : Decidable (NodupKeys d) :=
  inferInstanceAs (Decidable (dkeys d).Nodup)

theorem dlookup_dinsert {α : Type} (d : PyDict α) (key q : String) (v : α) :
    dlookup (dinsert d key v) q = if key = q then some v else dlookup d q := by
  induction d with
  | nil => simp [dinsert, dlookup]
  | cons p rest ih =>
    obtain ⟨k, w⟩ := p
    by_cases hk : k = key
    · subst hk
      by_cases hq : k = q
      · subst hq
        simp [dinsert, dlookup]
      · simp [dinsert, dlookup, hq]
    · by_cases hq : k = q
      · subst hq
        have hkq : ¬ key = k := fun h => hk h.symm
        simp [dinsert, hk, dlookup, hkq]
      · simp [dinsert, hk, dlookup, hq, ih]

theorem dlookup_derase {α : Type} (d : PyDict α) (key q : String) :
    dlookup (derase d key) q = if q = key then none else dlookup d q := by
  induction d with
  | nil => simp [derase, dlookup]
  | cons p rest ih =>
    obtain ⟨k, w⟩ := p
    by_cases hk : k = key
    · subst hk
      by_cases hq : q = k
      · subst hq
        simpa [derase] using ih
      · have hkq : ¬ k = q := fun h => hq h.symm
        simpa [derase, hq, dlookup, hkq] using ih
    · by_cases hq : q = k
      · subst hq
        have hqk : ¬ q = key := fun h => hk h
        simp [derase, hk, dlookup, hqk]
      · have hkq : ¬ k = q := fun h => hq h.symm
        simp [derase, hk, dlookup, hkq, ih]

theorem mem_of_dlookup {α : Type} {d : PyDict α} {k : String} {v : α}
    (h : dlookup d k = some v) : (k, v) ∈ d := by
  induction d with
  | nil => simp [dlookup] at h
  | cons p rest ih =>
    obtain ⟨k0, v0⟩ := p
    by_cases hk : k0 = k
    · subst hk
      simp [dlookup] at h
      simp [h]
    · simp [dlookup, hk] at h
      exact List.mem_cons_of_mem _ (ih h)

theorem dlookup_of_mem {α : Type} {d : PyDict α} {k : String} {v : α}
    (hd : NodupKeys d) (h : (k, v) ∈ d) : dlookup d k = some v := by
  induction d with
  | nil => simp at h
  | cons p rest ih =>
    obtain ⟨k0, v0⟩ := p
    simp only [NodupKeys, dkeys, List.map_cons, List.nodup_cons] at hd
    rcases List.mem_cons.mp h with h0 | h0
    · rw [Prod.mk.injEq] at h0
      obtain ⟨h1, h2⟩ := h0
      subst h1
      subst h2
      simp [dlookup]
    · have hk : k0 ≠ k := by
        intro he
        subst he
        exact hd.1 (List.mem_map.mpr ⟨(k0, v), h0, rfl⟩)
      simp only [dlookup, if_neg hk]
      exact ih hd.2 h0

theorem dlookup_eq_none {α : Type} {d : PyDict α} {k : String}
    (h : k ∉ dkeys d) : dlookup d k = none := by
  induction d with
  | nil => rfl
  | cons p rest ih =>
    obtain ⟨k0, v0⟩ := p
    simp only [dkeys, List.map_cons, List.mem_cons] at h
    push_neg at h
    have hk : ¬ k0 = k := fun he => h.1 he.symm
    simp only [dlookup, if_neg hk]
    exact ih h.2

theorem mem_dkeys_of_dlookup {α : Type} {d : PyDict α} {k : String} {v : α}
    (h : dlookup d k = some v) : k ∈ dkeys d := by
  exact List.mem_map.mpr ⟨(k, v), mem_of_dlookup h, rfl⟩

/-- A relation lifted to Option values: both absent, or both present and related. -/
def optionRel {α : Type} (r : α → α → Prop) : Option α → Option α → Prop
  | none, none => True
  | some x, some y => r x y
  | _, _ => False

theorem dictEqBy_iff {α : Type} (veq : α → α → Bool) (a b : PyDict α)
    (ha : NodupKeys a) (hb : NodupKeys b) :
    dictEqBy veq a b = true ↔
      ∀ k, optionRel (fun x y => veq x y = true) (dlookup a k) (dlookup b k) := by
  constructor
  · intro h k
    rw [dictEqBy, Bool.and_eq_true, List.all_eq_true, List.all_eq_true] at h
    obtain ⟨h1, h2⟩ := h
    cases hk : dlookup a k with
    | some v =>
      have hm := mem_of_dlookup hk
      have := h1 (k, v) hm
      cases hkb : dlookup b k with
      | some w =>
        simp only [hkb] at this
        simpa [optionRel] using this
      | none => simp [hkb] at this
    | none =>
      cases hkb : dlookup b k with
      | some w =>
        have hmb := mem_of_dlookup hkb
        have := h2 (k, w) hmb
        simp [hk] at this
      | none => simp [optionRel]
  · intro h
    rw [dictEqBy, Bool.and_eq_true, List.all_eq_true, List.all_eq_true]
    constructor
    · intro p hp
      obtain ⟨k, v⟩ := p
      have hk : dlookup a k = some v := dlookup_of_mem ha hp
      have := h k
      rw [hk] at this
      cases hkb : dlookup b k with
      | some w =>
        rw [hkb] at this
        simpa [optionRel] using this
      | none => rw [hkb] at this; exact absurd this (by simp [optionRel])
    · intro p hp
      obtain ⟨k, v⟩ := p
      have hk : dlookup b k = some v := dlookup_of_mem hb hp
      have := h k
      rw [hk] at this
      cases hka : dlookup a k with
      | some w =>
        rw [hka] at this
        simpa [optionRel] using this
      | none => rw [hka] at this; exact absurd this (by simp [optionRel])

theorem dictEq_iff (a b : PyDict String) (ha : NodupKeys a) (hb : NodupKeys b) :
    dictEqBy (fun x y => x == y) a b = true ↔ ∀ k, dlookup a k = dlookup b k := by
  rw [dictEqBy_iff _ _ _ ha hb]
  constructor
  · intro h k
    have := h k
    cases hka : dlookup a k <;> cases hkb : dlookup b k <;>
      rw [hka, hkb] at this <;> simp_all [optionRel]
  · intro h k
    rw [h k]
    cases dlookup b k <;> simp [optionRel]

theorem mem_dkeys_dinsert {α : Type} (d : PyDict α) (key q : String) (v : α) :
    q ∈ dkeys (dinsert d key v) ↔ q = key ∨ q ∈ dkeys d := by
  induction d with
  | nil => simp [dinsert, dkeys]
  | cons p rest ih =>
    obtain ⟨k, w⟩ := p
    by_cases hk : k = key
    · subst hk
      simp [dinsert, dkeys]
    · simp only [dinsert, if_neg hk, dkeys, List.map_cons, List.mem_cons] at ih ⊢
      rw [ih]
      tauto

theorem nodupKeys_dinsert {α : Type} {d : PyDict α} (key : String) (v : α)
    (hd : NodupKeys d) : NodupKeys (dinsert d key v) := by
  induction d with
  | nil => simp [dinsert, NodupKeys, dkeys]
  | cons p rest ih =>
    obtain ⟨k, w⟩ := p
    simp only [NodupKeys, dkeys, List.map_cons, List.nodup_cons] at hd
    by_cases hk : k = key
    · subst hk
      simpa [dinsert, NodupKeys, dkeys] using hd
    · have := ih hd.2
      simp only [dinsert, if_neg hk, NodupKeys, dkeys, List.map_cons, List.nodup_cons] at this ⊢
      refine ⟨?_, this⟩
      intro hmem
      rcases (mem_dkeys_dinsert rest key k v).mp hmem with h | h
      · exact hk h
      · exact hd.1 h

theorem mem_dkeys_derase {α : Type} (d : PyDict α) (key q : String) :
    q ∈ dkeys (derase d key) → q ∈ dkeys d := by
  induction d with
  | nil => simp [derase]
  | cons p rest ih =>
    obtain ⟨k, w⟩ := p
    by_cases hk : k = key
    · subst hk
      intro h
      simp only [derase, if_pos rfl] at h
      exact List.mem_cons_of_mem _ (ih h)
    · intro h
      simp only [derase, if_neg hk, dkeys, List.map_cons, List.mem_cons] at h ⊢
      rcases h with h | h
      · exact Or.inl h
      · exact Or.inr (ih h)

theorem nodupKeys_derase {α : Type} {d : PyDict α} (key : String)
    (hd : NodupKeys d) : NodupKeys (derase d key) := by
  induction d with
  | nil => simp [derase, NodupKeys, dkeys]
  | cons p rest ih =>
    obtain ⟨k, w⟩ := p
    simp only [NodupKeys, dkeys, List.map_cons, List.nodup_cons] at hd
    by_cases hk : k = key
    · subst hk
      simpa [derase] using ih hd.2
    · have := ih hd.2
      simp only [derase, if_neg hk, NodupKeys, dkeys, List.map_cons, List.nodup_cons]
      exact ⟨fun hmem => hd.1 (mem_dkeys_derase rest key k hmem), this⟩

/-! ## TaskGraph: the Async / AwaitAll combinators (sign_virt_apex.py lines 60-77)

A dependency future is modelled by its completion result: Except.ok () for a task
that completed successfully, Except.error e for one that failed with exception e.
-/

/-- AwaitAll(fs): waits on each future in order; future.result() re-raises the
stored exception, so the first failed future in list order aborts the loop. -/
def AwaitAll {ε : Type} : List (Except ε Unit) → Except ε Unit
  | [] => Except.ok ()
  | Except.error e :: _ => Except.error e
  | Except.ok _ :: rest => AwaitAll rest

/-- The first failure in a list of completed dependency futures. -/
def firstFailure {ε : Type} : List (Except ε Unit) → Option ε
  | [] => none
  | Except.error e :: _ => some e
  | Except.ok _ :: rest => firstFailure rest

/-- The wrapped closure built by Async(fn, wait=...): AwaitAll(wait) runs first and
fn only afterwards. The Bool records whether the body fn was invoked; the Except
value is what awaiting the task (future.result()) re-raises or returns. -/
def runTask {ε α : Type} (wait : List (Except ε Unit)) (body : Unit → Except ε α) :
    Bool × Except ε α :=
  match AwaitAll wait with
  | Except.error e => (false, Except.error e)
  | Except.ok _ => (true, body ())

theorem AwaitAll_eq_firstFailure {ε : Type} (fs : List (Except ε Unit)) :
    AwaitAll fs = match firstFailure fs with
      | some e => Except.error e
      | none => Except.ok () := by
  induction fs with
  | nil => rfl
  | cons f rest ih =>
    cases f with
    | error e => rfl
    | ok _ => simpa [AwaitAll, firstFailure] using ih

theorem firstFailure_isSome_of_mem {ε : Type} {fs : List (Except ε Unit)} {e : ε}
    (h : Except.error e ∈ fs) : ∃ e0, firstFailure fs = some e0 := by
  induction fs with
  | nil => simp at h
  | cons f rest ih =>
    cases f with
    | error e1 => exact ⟨e1, rfl⟩
    | ok _ =>
      rcases List.mem_cons.mp h with h0 | h0
      · cases h0
      · simpa [firstFailure] using ih h0

/-- C2. If any dependency of a task failed, the task body never runs, the task
itself fails, and awaiting it re-raises the first dependency failure in list
order, as the very same error value (identity and message preserved). -/
theorem C2_dependency_failure_skips_body {ε α : Type}
    (wait : List (Except ε Unit)) (body : Unit → Except ε α)
    (h : ∃ e, Except.error e ∈ wait) :
    (runTask wait body).1 = false ∧
      ∃ e0, firstFailure wait = some e0 ∧ (runTask wait body).2 = Except.error e0 := by
  obtain ⟨e, he⟩ := h
  obtain ⟨e0, he0⟩ := firstFailure_isSome_of_mem he
  have hA : AwaitAll wait = Except.error e0 := by
    rw [AwaitAll_eq_firstFailure, he0]
  refine ⟨?_, e0, he0, ?_⟩
  · simp [runTask, hA]
  · simp [runTask, hA]

/-- Witness for C2 at a concrete input: dependencies [ok, error "boom"], a body
returning 42; the body is skipped and the failure "boom" is re-raised. -/
theorem C2_witness :
    (∃ e, Except.error e ∈ [Except.ok (), Except.error "boom"]) ∧
      (runTask [Except.ok (), Except.error "boom"] (fun _ => Except.ok 42)).1 = false ∧
      ∃ e0, firstFailure [Except.ok (), Except.error "boom"] = some e0 ∧
        (runTask [Except.ok (), Except.error "boom"] (fun _ => Except.ok (42 : Nat))).2 =
          Except.error e0 :=
  ⟨⟨"boom", by simp⟩,
    C2_dependency_failure_skips_body [Except.ok (), Except.error "boom"]
      (fun _ => Except.ok (42 : Nat)) ⟨"boom", by simp⟩⟩

/-! ## ProcessRunner: the environment passed to the child (RunCommand, lines 123-126)

The code runs env = env or LBRACE RBRACE; env.update(os.environ.copy()), i.e. it
copies the ambient environment INTO the overrides dict, and passes the result to
subprocess.Popen. -/

/-- The child-process environment RunCommand builds from the env argument
(the overrides) and os.environ (the ambient environment). -/
def runCommandEnv (overrides ambient : PyDict String) : PyDict String :=
  ambient.foldl (fun acc kv => dinsert acc kv.1 kv.2) overrides

theorem dlookup_append {α : Type} (a b : PyDict α) (k : String) :
    dlookup (a ++ b) k =
      match dlookup a k with
      | some v => some v
      | none => dlookup b k := by
  induction a with
  | nil => simp [dlookup]
  | cons p rest ih =>
    obtain ⟨k0, v0⟩ := p
    by_cases hk0 : k0 = k
    · simp [dlookup, hk0]
    · simp [dlookup, hk0, ih]

theorem dlookup_foldl_dinsert {α : Type} (l : List (String × α)) (init : PyDict α)
    (k : String) :
    dlookup (l.foldl (fun acc kv => dinsert acc kv.1 kv.2) init) k =
      match dlookup l.reverse k with
      | some v => some v
      | none => dlookup init k := by
  induction l generalizing init with
  | nil => simp [dlookup]
  | cons p rest ih =>
    obtain ⟨k0, v0⟩ := p
    simp only [List.foldl_cons, List.reverse_cons]
    rw [ih, dlookup_append]
    cases hrest : dlookup rest.reverse k with
    | some v => rfl
    | none =>
      rw [dlookup_dinsert]
      by_cases hk0 : k0 = k
      · simp [dlookup, hk0]
      · simp [dlookup, hk0]

theorem dlookup_reverse {α : Type} {d : PyDict α} (hd : NodupKeys d) (k : String) :
    dlookup d.reverse k = dlookup d k := by
  induction d with
  | nil => rfl
  | cons p rest ih =>
    obtain ⟨k0, v0⟩ := p
    simp only [NodupKeys, dkeys, List.map_cons, List.nodup_cons] at hd
    rw [List.reverse_cons, dlookup_append, ih hd.2]
    by_cases hk0 : k0 = k
    · subst hk0
      have hnone : dlookup rest k0 = none := by
        apply dlookup_eq_none
        exact hd.1
      simp [hnone, dlookup]
    · cases hr : dlookup rest k with
      | some v => simp [dlookup, hk0, hr]
      | none => simp [dlookup, hk0, hr]

/-- C4 counterexample. The claim says that for a key present in both the override
table and the ambient environment the child receives the override value; in fact
env.update(os.environ.copy()) makes the ambient value win. -/
theorem C4_counterexample :
    runCommandEnv [("PATH", "override")] [("PATH", "ambient")] = [("PATH", "ambient")] ∧
      dlookup (runCommandEnv [("PATH", "override")] [("PATH", "ambient")]) "PATH" =
        some "ambient" ∧
      some "ambient" ≠ some "override" := by
  refine ⟨rfl, rfl, by simp⟩

/-- C4 as amended. The child environment is the override table merged UNDER the
ambient environment: for a key in the ambient environment the ambient value wins;
override entries only survive for keys absent from the ambient environment. -/
theorem C4_amended_ambient_wins (overrides ambient : PyDict String)
    (hamb : NodupKeys ambient) (k : String) :
    dlookup (runCommandEnv overrides ambient) k =
      match dlookup ambient k with
      | some v => some v
      | none => dlookup overrides k := by
  rw [runCommandEnv, dlookup_foldl_dinsert, dlookup_reverse hamb]
  cases dlookup ambient k <;> rfl

/-- Witness for C4's amended theorem at concrete dicts. -/
theorem C4_amended_witness :
    NodupKeys ([("PATH", "ambient")] : PyDict String) ∧
      dlookup (runCommandEnv [("PATH", "override"), ("NEW", "n")] [("PATH", "ambient")]) "PATH" =
        match dlookup [("PATH", "ambient")] "PATH" with
        | some v => some v
        | none => dlookup [("PATH", "override"), ("NEW", "n")] "PATH" :=
  ⟨by simp [NodupKeys, dkeys],
    C4_amended_ambient_wins [("PATH", "override"), ("NEW", "n")] [("PATH", "ambient")]
      (by simp [NodupKeys, dkeys]) "PATH"⟩

/-! ## Descriptors (the AvbInfo output shape shared by several components) -/

/-- A descriptor value: a plain string for Prop descriptors, a field dict for
structured descriptors (the parser below only produces these two shapes). -/
inductive DescValue where
  | str (s : String)
  | map (fields : PyDict String)
deriving DecidableEq, Repr

/-- A named descriptor, as appended to the descriptors list by the parser. -/
abbrev Descriptor := String × DescValue

/-- find_all_values_by_key(pairs, key): all values whose name equals the key. -/
def find_all_values_by_key (pairs : List Descriptor) (key : String) : List DescValue :=
  (pairs.filter (fun p => p.1 = key)).map Prod.snd

/-! ## DigestPatcher (update_initrd_digests_in_rialto, lines 664-716) -/

/-- Byte strings are lists of byte values. -/
abbrev Bytes := List Nat

/-- The value of one hexadecimal digit. -/
def hexVal (c : Char) : Option Nat :=
  if '0' ≤ c ∧ c ≤ '9' then some (c.toNat - '0'.toNat)
  else if 'a' ≤ c ∧ c ≤ 'f' then some (c.toNat - 'a'.toNat + 10)
  else if 'A' ≤ c ∧ c ≤ 'F' then some (c.toNat - 'A'.toNat + 10)
  else none

/-- Hex decoding of a character list, two digits per byte. -/
def hexDecode : List Char → Option Bytes
  | [] => some []
  | [_] => none
  | c1 :: c2 :: rest =>
    match hexVal c1, hexVal c2, hexDecode rest with
    | some h, some l, some bs => some ((16 * h + l) :: bs)
    | _, _, _ => none

/-- binascii.unhexlify: hex string to bytes, raising on malformed input. -/
def unhexlify (s : String) : Except Err Bytes :=
  match hexDecode s.toList with
  | some bs => Except.ok bs
  | none => Except.error (Err.valueError "Non-hexadecimal digit found")

/-- Worker for the dict comprehension of extract_hash_descriptors specialised to
f = lambda x: binascii.unhexlify(x[Digest]): walks the Hash descriptor values,
building the partition-name-keyed dict; a string-shaped descriptor is a
TypeError, a missing field a KeyError, malformed hex a binascii error. -/
def extractDigestsGo : List DescValue → PyDict Bytes → Except Err (PyDict Bytes)
  | [], acc => Except.ok acc
  | DescValue.str _ :: _, _ => Except.error Err.typeError
  | DescValue.map m :: rest, acc =>
    match dlookup m "Partition Name" with
    | none => Except.error (Err.keyError "Partition Name")
    | some pn =>
      match dlookup m "Digest" with
      | none => Except.error (Err.keyError "Digest")
      | some dg =>
        match unhexlify dg with
        | Except.error e => Except.error e
        | Except.ok bs => extractDigestsGo rest (dinsert acc pn bs)

/-- extract_hash_descriptors(descriptors, lambda x: unhexlify(x[Digest])). -/
def extractDigests (descriptors : List Descriptor) : Except Err (PyDict Bytes) :=
  extractDigestsGo (find_all_values_by_key descriptors "Hash descriptor") []

/-- Whether pat occurs as a contiguous substring of c. -/
def occursSub (pat : Bytes) : Bytes → Bool
  | [] => pat.isEmpty
  | b :: rest => pat.isPrefixOf (b :: rest) || occursSub pat rest

/-- Python bytes.replace(old, new) for non-empty old: replaces every
non-overlapping occurrence, scanning left to right. The fuel argument (always
at least the length of the remaining input, which shrinks at least as fast)
only makes the recursion structural. -/
def replaceAllFuel (old new : Bytes) : Nat → Bytes → Bytes
  | _, [] => []
  | 0, c => c
  | fuel + 1, b :: rest =>
    if old ≠ [] ∧ old.isPrefixOf (b :: rest) = true then
      new ++ replaceAllFuel old new fuel ((b :: rest).drop old.length)
    else
      b :: replaceAllFuel old new fuel rest

/-- content.replace(old, new): replace every occurrence of old by new. -/
def replaceAll (old new c : Bytes) : Bytes :=
  replaceAllFuel old new c.length c

/-- Modelled from the spec (DigestPatcher): replace only the FIRST exact
occurrence of the old digest bytes with the new one. Used to compare the code
against the spec sentence; the code itself uses replaceAll. -/
def spec_replace_first (old new : Bytes) : Bytes → Bytes
  | [] => []
  | b :: rest =>
    if old ≠ [] ∧ old.isPrefixOf (b :: rest) = true then
      new ++ (b :: rest).drop old.length
    else
      b :: spec_replace_first old new rest

/-- Set equality of two key lists (Python set(a) == set(b)). -/
def sameKeySet (a b : List String) : Bool :=
  a.all (fun k => b.contains k) && b.all (fun k => a.contains k)

/-- The expected partition names besides boot. -/
def initrdPartitionNames : List String := ["initrd_normal", "initrd_debug"]

/-- Disjointness of the two digest value collections
(set(original_digests.values()).isdisjoint(updated_digests.values())). -/
def valuesDisjoint (a b : List Bytes) : Bool :=
  a.all (fun x => ! b.contains x)

/-- The per-partition substitution loop of update_initrd_digests_in_rialto:
checks equal digest length, replaces every occurrence of the old digest,
asserts the length is unchanged and that at least one substitution happened. -/
def digestLoop (updatedDigests : PyDict Bytes) : PyDict Bytes → Bytes → Except Err Bytes
  | [], content => Except.ok content
  | (pn, originalDigest) :: rest, content =>
    match dlookup updatedDigests pn with
    | none => Except.error (Err.keyError pn)
    | some updatedDigest =>
      if originalDigest.length = updatedDigest.length then
        let newContent := replaceAll originalDigest updatedDigest content
        if newContent.length = content.length then
          if newContent = content then
            Except.error (Err.assertionError "original digest of the partition not found")
          else
            digestLoop updatedDigests rest newContent
        else
          Except.error (Err.assertionError "Length of new_content and content must be the same")
      else
        Except.error
          (Err.assertionError "Length of original_digest and updated_digest must be the same")

/-- Models update_initrd_digests_in_rialto. The updated descriptors, which the
source reads from the already-resigned kernel via AvbInfo, are a parameter. -/
def update_initrd_digests_in_rialto (originalDescriptors updatedDescriptors : List Descriptor)
    (content : Bytes) : Except Err Bytes :=
  match extractDigests originalDescriptors with
  | Except.error e => Except.error e
  | Except.ok originalDigests =>
  match extractDigests updatedDescriptors with
  | Except.error e => Except.error e
  | Except.ok updatedDigests =>
  match dlookup originalDigests "boot" with
  | none => Except.error (Err.keyError "boot")
  | some originalBoot =>
  match dlookup updatedDigests "boot" with
  | none => Except.error (Err.keyError "boot")
  | some updatedBoot =>
  if originalBoot = updatedBoot then
    if sameKeySet (dkeys (derase originalDigests "boot")) (dkeys (derase updatedDigests "boot"))
        && sameKeySet (dkeys (derase updatedDigests "boot")) initrdPartitionNames then
      if valuesDisjoint ((derase originalDigests "boot").map Prod.snd)
          ((derase updatedDigests "boot").map Prod.snd) then
        digestLoop (derase updatedDigests "boot") (derase originalDigests "boot") content
      else
        Except.error
          (Err.assertionError "Digests of initrd_normal and initrd_debug should change")
    else
      Except.error
        (Err.assertionError "Original digests partitions should be initrd_normal and initrd_debug")
  else
    Except.error (Err.assertionError "Hash descriptor of boot should not change")

/-- The per-kernel fold of update_initrd_digests_of_kernels_in_rialto. -/
def foldKernels : List (List Descriptor × List Descriptor) → Bytes → Except Err Bytes
  | [], content => Except.ok content
  | (originalDescs, updatedDescs) :: rest, content =>
    match update_initrd_digests_in_rialto originalDescs updatedDescs content with
    | Except.error e => Except.error e
    | Except.ok c2 => foldKernels rest c2

/-- Models update_initrd_digests_of_kernels_in_rialto: reads the rialto file,
folds the per-kernel patch over its content, and (on success) yields the content
written back. With --do_not_update_bootconfigs it returns at once. -/
def update_initrd_digests_of_kernels_in_rialto (doNotUpdateBootconfigs : Bool)
    (kernels : List (List Descriptor × List Descriptor)) (content : Bytes) :
    Except Err Bytes :=
  if doNotUpdateBootconfigs then Except.ok content
  else foldKernels kernels content

/-- The rialto file content after the call: the file is rewritten only when the
whole fold succeeds (the write sits after the loop in the source), so an
exception anywhere leaves the original content. -/
def rialtoFileAfter (doNotUpdateBootconfigs : Bool)
    (kernels : List (List Descriptor × List Descriptor)) (content : Bytes) : Bytes :=
  match update_initrd_digests_of_kernels_in_rialto doNotUpdateBootconfigs kernels content with
  | Except.ok c2 => c2
  | Except.error _ => content

theorem replaceAllFuel_id_of_not_occurs {old : Bytes} (new : Bytes) {c : Bytes}
    (h : occursSub old c = false) (fuel : Nat) :
    replaceAllFuel old new fuel c = c := by
  induction fuel generalizing c with
  | zero => cases c <;> rfl
  | succ fuel ih =>
    cases c with
    | nil => rfl
    | cons b rest =>
      simp only [occursSub, Bool.or_eq_false_iff] at h
      have hcond : ¬ (old ≠ [] ∧ old.isPrefixOf (b :: rest) = true) := by
        intro hc
        rw [h.1] at hc
        exact absurd hc.2 (by simp)
      simp only [replaceAllFuel, if_neg hcond]
      rw [ih h.2]

theorem replaceAll_id_of_not_occurs {old : Bytes} (new : Bytes) {c : Bytes}
    (h : occursSub old c = false) : replaceAll old new c = c :=
  replaceAllFuel_id_of_not_occurs new h c.length

theorem digestLoop_nil_ok {upd : PyDict Bytes} {c r : Bytes}
    (h : digestLoop upd [] c = Except.ok r) : r = c := by
  simp only [digestLoop] at h
  exact (Except.ok.injEq .. ▸ h).symm

theorem digestLoop_cons_ok {upd : PyDict Bytes} {p : String} {od0 : Bytes}
    {rest : PyDict Bytes} {c r : Bytes}
    (h : digestLoop upd ((p, od0) :: rest) c = Except.ok r) :
    ∃ nd, dlookup upd p = some nd ∧ od0.length = nd.length ∧
      (replaceAll od0 nd c).length = c.length ∧ replaceAll od0 nd c ≠ c ∧
      digestLoop upd rest (replaceAll od0 nd c) = Except.ok r := by
  simp only [digestLoop] at h
  split at h
  · simp at h
  next nd hnd =>
    split at h
    next hlen =>
      split at h
      next hclen =>
        split at h
        next hchanged => simp at h
        next hchanged => exact ⟨nd, hnd, hlen, hclen, hchanged, h⟩
      next hclen => simp at h
    next hlen => simp at h

theorem digestLoop_ok_forall {upd : PyDict Bytes} {l : PyDict Bytes} {c r : Bytes}
    (h : digestLoop upd l c = Except.ok r) :
    ∀ p o, (p, o) ∈ l → ∃ nd, dlookup upd p = some nd ∧ o.length = nd.length := by
  induction l generalizing c with
  | nil => intro p o hmem; simp at hmem
  | cons q rest ih =>
    obtain ⟨p0, o0⟩ := q
    obtain ⟨nd, hnd, hlen, _, _, hrest⟩ := digestLoop_cons_ok h
    intro p o hmem
    rcases List.mem_cons.mp hmem with h0 | h0
    · rw [Prod.mk.injEq] at h0
      obtain ⟨h1, h2⟩ := h0
      subst h1
      subst h2
      exact ⟨nd, hnd, hlen⟩
    · exact ih hrest p o h0

theorem extractDigestsGo_nodup {vs : List DescValue} {acc e : PyDict Bytes}
    (hacc : NodupKeys acc) (h : extractDigestsGo vs acc = Except.ok e) :
    NodupKeys e := by
  induction vs generalizing acc with
  | nil =>
    simp only [extractDigestsGo] at h
    injection h with h2
    subst h2
    exact hacc
  | cons v rest ih =>
    cases v with
    | str s => simp [extractDigestsGo] at h
    | map m =>
      simp only [extractDigestsGo] at h
      split at h
      · simp at h
      next pn hpn =>
        split at h
        · simp at h
        next dg hdg =>
          split at h
          · simp at h
          next bs hbs => exact ih (nodupKeys_dinsert pn bs hacc) h

theorem extractDigests_nodup {descs : List Descriptor} {e : PyDict Bytes}
    (h : extractDigests descs = Except.ok e) : NodupKeys e :=
  extractDigestsGo_nodup (by simp [NodupKeys, dkeys]) h

theorem sameKeySet_iff (a b : List String) :
    sameKeySet a b = true ↔ ∀ k, k ∈ a ↔ k ∈ b := by
  simp only [sameKeySet, Bool.and_eq_true, List.all_eq_true]
  constructor
  · intro h k
    constructor
    · intro hk
      have := h.1 k hk
      simpa using this
    · intro hk
      have := h.2 k hk
      simpa using this
  · intro h
    constructor
    · intro k hk
      simpa using (h k).mp hk
    · intro k hk
      simpa using (h k).mpr hk

theorem valuesDisjoint_ne {a b : List Bytes} (h : valuesDisjoint a b = true)
    {x : Bytes} (hxa : x ∈ a) (hxb : x ∈ b) : False := by
  simp only [valuesDisjoint, List.all_eq_true] at h
  have := h x hxa
  simp [hxb] at this

theorem twoKeys_eq {α : Type} {l : PyDict α} {n d : String} (hnd : n ≠ d)
    (hl : NodupKeys l) (hk : ∀ k, k ∈ dkeys l ↔ (k = n ∨ k = d)) :
    ∃ o1 o2, l = [(n, o1), (d, o2)] ∨ l = [(d, o1), (n, o2)] := by
  match l with
  | [] =>
    have := (hk n).mpr (Or.inl rfl)
    simp [dkeys] at this
  | [(k1, o1)] =>
    have hn := (hk n).mpr (Or.inl rfl)
    have hd2 := (hk d).mpr (Or.inr rfl)
    simp [dkeys] at hn hd2
    exact absurd (hn.trans hd2.symm) hnd
  | [(k1, o1), (k2, o2)] =>
    have h1 : k1 = n ∨ k1 = d := (hk k1).mp (by simp [dkeys])
    have h2 : k2 = n ∨ k2 = d := (hk k2).mp (by simp [dkeys])
    have hne : k1 ≠ k2 := by
      simp [NodupKeys, dkeys] at hl
      exact hl
    rcases h1 with h1 | h1 <;> rcases h2 with h2 | h2
    · exact absurd (h1.trans h2.symm) hne
    · subst h1; subst h2; exact ⟨o1, o2, Or.inl rfl⟩
    · subst h1; subst h2; exact ⟨o1, o2, Or.inr rfl⟩
    · exact absurd (h1.trans h2.symm) hne
  | (k1, o1) :: (k2, o2) :: (k3, o3) :: t3 =>
    have h1 : k1 = n ∨ k1 = d := (hk k1).mp (by simp [dkeys])
    have h2 : k2 = n ∨ k2 = d := (hk k2).mp (by simp [dkeys])
    have h3 : k3 = n ∨ k3 = d := (hk k3).mp (by simp [dkeys])
    simp only [NodupKeys, dkeys, List.map_cons, List.nodup_cons, List.mem_cons] at hl
    rcases h1 with h1 | h1 <;> rcases h2 with h2 | h2 <;> rcases h3 with h3 | h3 <;>
      simp_all

theorem update_ok_spec {od ud : List Descriptor} {c r : Bytes}
    (h : update_initrd_digests_in_rialto od ud c = Except.ok r) :
    ∃ eo eu b,
      extractDigests od = Except.ok eo ∧
      extractDigests ud = Except.ok eu ∧
      dlookup eo "boot" = some b ∧
      dlookup eu "boot" = some b ∧
      sameKeySet (dkeys (derase eo "boot")) (dkeys (derase eu "boot")) = true ∧
      sameKeySet (dkeys (derase eu "boot")) initrdPartitionNames = true ∧
      valuesDisjoint ((derase eo "boot").map Prod.snd)
        ((derase eu "boot").map Prod.snd) = true ∧
      digestLoop (derase eu "boot") (derase eo "boot") c = Except.ok r := by
  unfold update_initrd_digests_in_rialto at h
  split at h
  · simp at h
  next eo heo =>
    split at h
    · simp at h
    next eu heu =>
      split at h
      · simp at h
      next ob hob =>
        split at h
        · simp at h
        next ub hub =>
          split at h
          next hbeq =>
            split at h
            next hsets =>
              split at h
              next hdisj =>
                subst hbeq
                rw [Bool.and_eq_true] at hsets
                exact ⟨eo, eu, ob, heo, heu, hob, hub, hsets.1, hsets.2, hdisj, h⟩
              next hdisj => simp at h
            next hsets => simp at h
          next hbeq => simp at h

/-- The per-kernel digest patch succeeds on a given content only as the full
characterization below states; in particular its failing checks line up with
the claims about the DigestPatcher. -/
theorem dlookup_some_of_mem_dkeys {α : Type} {d : PyDict α} {k : String}
    (h : k ∈ dkeys d) : ∃ v, dlookup d k = some v := by
  induction d with
  | nil => simp [dkeys] at h
  | cons p rest ih =>
    obtain ⟨k0, v0⟩ := p
    by_cases hk : k0 = k
    · subst hk
      exact ⟨v0, by simp [dlookup]⟩
    · simp only [dkeys, List.map_cons, List.mem_cons] at h
      rcases h with h | h
      · exact absurd h.symm hk
      · simpa [dlookup, hk] using ih h

theorem update_error_of_not_ok {od ud : List Descriptor} {c : Bytes}
    (h : ∀ r, update_initrd_digests_in_rialto od ud c ≠ Except.ok r) :
    ∃ e, update_initrd_digests_in_rialto od ud c = Except.error e := by
  cases hres : update_initrd_digests_in_rialto od ud c with
  | error e => exact ⟨e, rfl⟩
  | ok r => exact absurd hres (h r)

/-- C1 as amended. When the per-kernel digest patch on the rialto blob succeeds:
the boot digest is byte-identical between old and new; the remaining partitions
are exactly initrd_normal and initrd_debug; each new digest differs from the old
one and has the same byte length; and the blob undergoes two successive
substitutions, one per partition, each replacing EVERY occurrence of the old
digest bytes (not only the first, with no check that exactly one substitution
happened), each changing the content (an absent digest is fatal) and keeping the
blob length unchanged. -/
theorem C1_amended_patch_replaces_all_occurrences
    (od ud : List Descriptor) (c r : Bytes)
    (h : update_initrd_digests_in_rialto od ud c = Except.ok r) :
    ∃ eo eu b p1 o1 n1 p2 o2 n2,
      extractDigests od = Except.ok eo ∧
      extractDigests ud = Except.ok eu ∧
      dlookup eo "boot" = some b ∧
      dlookup eu "boot" = some b ∧
      derase eo "boot" = [(p1, o1), (p2, o2)] ∧
      ((p1 = "initrd_normal" ∧ p2 = "initrd_debug") ∨
        (p1 = "initrd_debug" ∧ p2 = "initrd_normal")) ∧
      dlookup (derase eu "boot") p1 = some n1 ∧
      dlookup (derase eu "boot") p2 = some n2 ∧
      o1 ≠ n1 ∧ o2 ≠ n2 ∧ o1.length = n1.length ∧ o2.length = n2.length ∧
      replaceAll o1 n1 c ≠ c ∧ (replaceAll o1 n1 c).length = c.length ∧
      r = replaceAll o2 n2 (replaceAll o1 n1 c) ∧
      r ≠ replaceAll o1 n1 c ∧ r.length = c.length := by
  obtain ⟨eo, eu, b, heo, heu, hob, hub, hset1, hset2, hdisj, hloop⟩ := update_ok_spec h
  have hnodup : NodupKeys (derase eo "boot") :=
    nodupKeys_derase _ (extractDigests_nodup heo)
  have hks : ∀ k, k ∈ dkeys (derase eo "boot") ↔
      (k = "initrd_normal" ∨ k = "initrd_debug") := by
    intro k
    rw [(sameKeySet_iff _ _).mp hset1 k, (sameKeySet_iff _ _).mp hset2 k]
    simp [initrdPartitionNames]
  obtain ⟨o1, o2, hl | hl⟩ := twoKeys_eq (by decide) hnodup hks
  · rw [hl] at hloop hdisj
    obtain ⟨n1, hn1, hlen1, hclen1, hchg1, hloop2⟩ := digestLoop_cons_ok hloop
    obtain ⟨n2, hn2, hlen2, hclen2, hchg2, hloop3⟩ := digestLoop_cons_ok hloop2
    have hr := digestLoop_nil_ok hloop3
    have hone : o1 ≠ n1 := by
      intro he
      refine valuesDisjoint_ne hdisj (x := o1) (by simp) ?_
      rw [he]
      exact List.mem_map.mpr ⟨(_, n1), mem_of_dlookup hn1, rfl⟩
    have htwo : o2 ≠ n2 := by
      intro he
      refine valuesDisjoint_ne hdisj (x := o2) (by simp) ?_
      rw [he]
      exact List.mem_map.mpr ⟨(_, n2), mem_of_dlookup hn2, rfl⟩
    refine ⟨eo, eu, b, "initrd_normal", o1, n1, "initrd_debug", o2, n2,
      heo, heu, hob, hub, hl, Or.inl ⟨rfl, rfl⟩, hn1, hn2, hone, htwo,
      hlen1, hlen2, hchg1, hclen1, hr, ?_, ?_⟩
    · rw [hr]
      exact hchg2
    · rw [hr]
      exact hclen2.trans hclen1
  · rw [hl] at hloop hdisj
    obtain ⟨n1, hn1, hlen1, hclen1, hchg1, hloop2⟩ := digestLoop_cons_ok hloop
    obtain ⟨n2, hn2, hlen2, hclen2, hchg2, hloop3⟩ := digestLoop_cons_ok hloop2
    have hr := digestLoop_nil_ok hloop3
    have hone : o1 ≠ n1 := by
      intro he
      refine valuesDisjoint_ne hdisj (x := o1) (by simp) ?_
      rw [he]
      exact List.mem_map.mpr ⟨(_, n1), mem_of_dlookup hn1, rfl⟩
    have htwo : o2 ≠ n2 := by
      intro he
      refine valuesDisjoint_ne hdisj (x := o2) (by simp) ?_
      rw [he]
      exact List.mem_map.mpr ⟨(_, n2), mem_of_dlookup hn2, rfl⟩
    refine ⟨eo, eu, b, "initrd_debug", o1, n1, "initrd_normal", o2, n2,
      heo, heu, hob, hub, hl, Or.inr ⟨rfl, rfl⟩, hn1, hn2, hone, htwo,
      hlen1, hlen2, hchg1, hclen1, hr, ?_, ?_⟩
    · rw [hr]
      exact hchg2
    · rw [hr]
      exact hclen2.trans hclen1

/-- Old kernel descriptors for the C1 concrete runs: boot digest 55,
initrd_normal digest aa, initrd_debug digest 11. -/
def c1Od : List Descriptor :=
  [("Hash descriptor", DescValue.map [("Partition Name", "boot"), ("Digest", "55")]),
   ("Hash descriptor", DescValue.map [("Partition Name", "initrd_normal"), ("Digest", "aa")]),
   ("Hash descriptor", DescValue.map [("Partition Name", "initrd_debug"), ("Digest", "11")])]

/-- New kernel descriptors for the C1 concrete runs: boot unchanged, the two
initrd digests changed to cc and 33. -/
def c1Ud : List Descriptor :=
  [("Hash descriptor", DescValue.map [("Partition Name", "boot"), ("Digest", "55")]),
   ("Hash descriptor", DescValue.map [("Partition Name", "initrd_normal"), ("Digest", "cc")]),
   ("Hash descriptor", DescValue.map [("Partition Name", "initrd_debug"), ("Digest", "33")])]

/-- C1 counterexample. On a blob where the old initrd_normal digest bytes occur
TWICE, the patch succeeds and substitutes BOTH occurrences, so the result is not
the first-occurrence-only substitution the claim describes, and more than one
contiguous substitution occurs without any fatal error. -/
theorem C1_counterexample :
    update_initrd_digests_in_rialto c1Od c1Ud [170, 0, 170, 17] =
        Except.ok [204, 0, 204, 51] ∧
      spec_replace_first [17] [51] (spec_replace_first [170] [204] [170, 0, 170, 17]) =
        [204, 0, 170, 51] ∧
      ([204, 0, 204, 51] : Bytes) ≠ [204, 0, 170, 51] :=
  ⟨by rfl, by rfl, by decide⟩

/-- Witness for C1's amended theorem: a concrete successful patch. -/
theorem C1_witness :
    ∃ eo eu b p1 o1 n1 p2 o2 n2,
      extractDigests c1Od = Except.ok eo ∧
      extractDigests c1Ud = Except.ok eu ∧
      dlookup eo "boot" = some b ∧
      dlookup eu "boot" = some b ∧
      derase eo "boot" = [(p1, o1), (p2, o2)] ∧
      ((p1 = "initrd_normal" ∧ p2 = "initrd_debug") ∨
        (p1 = "initrd_debug" ∧ p2 = "initrd_normal")) ∧
      dlookup (derase eu "boot") p1 = some n1 ∧
      dlookup (derase eu "boot") p2 = some n2 ∧
      o1 ≠ n1 ∧ o2 ≠ n2 ∧ o1.length = n1.length ∧ o2.length = n2.length ∧
      replaceAll o1 n1 [170, 17] ≠ [170, 17] ∧
      (replaceAll o1 n1 [170, 17]).length = ([170, 17] : Bytes).length ∧
      ([204, 51] : Bytes) = replaceAll o2 n2 (replaceAll o1 n1 [170, 17]) ∧
      ([204, 51] : Bytes) ≠ replaceAll o1 n1 [170, 17] ∧
      ([204, 51] : Bytes).length = ([170, 17] : Bytes).length :=
  C1_amended_patch_replaces_all_occurrences c1Od c1Ud [170, 17] [204, 51] (by rfl)

/-- C6. If any check of the rialto digest patch fails — boot digest changed,
partition set not exactly initrd_normal and initrd_debug, digest length
mismatch, or the (first) old digest bytes absent from the blob — the patch
raises, and on any failure the blob content is left unchanged, because the
patched content is written back only after every kernel's substitutions
succeed. -/
theorem C6_failed_patch_leaves_blob :
    (∀ (doNot : Bool) (ks : List (List Descriptor × List Descriptor)) (c : Bytes) (e : Err),
      update_initrd_digests_of_kernels_in_rialto doNot ks c = Except.error e →
      rialtoFileAfter doNot ks c = c) ∧
    (∀ (od ud : List Descriptor) (c : Bytes) (eo eu : PyDict Bytes) (bo bu : Bytes),
      extractDigests od = Except.ok eo → extractDigests ud = Except.ok eu →
      dlookup eo "boot" = some bo → dlookup eu "boot" = some bu → bo ≠ bu →
      ∃ e, update_initrd_digests_in_rialto od ud c = Except.error e) ∧
    (∀ (od ud : List Descriptor) (c : Bytes) (eo : PyDict Bytes),
      extractDigests od = Except.ok eo →
      ¬ (∀ k, k ∈ dkeys (derase eo "boot") ↔ (k = "initrd_normal" ∨ k = "initrd_debug")) →
      ∃ e, update_initrd_digests_in_rialto od ud c = Except.error e) ∧
    (∀ (od ud : List Descriptor) (c : Bytes) (eo eu : PyDict Bytes) (p : String) (o n : Bytes),
      extractDigests od = Except.ok eo → extractDigests ud = Except.ok eu →
      dlookup (derase eo "boot") p = some o → dlookup (derase eu "boot") p = some n →
      o.length ≠ n.length →
      ∃ e, update_initrd_digests_in_rialto od ud c = Except.error e) ∧
    (∀ (od ud : List Descriptor) (c : Bytes) (eo : PyDict Bytes) (p : String) (o : Bytes)
        (rest : PyDict Bytes),
      extractDigests od = Except.ok eo →
      derase eo "boot" = (p, o) :: rest → occursSub o c = false →
      ∃ e, update_initrd_digests_in_rialto od ud c = Except.error e) := by
  refine ⟨?_, ?_, ?_, ?_, ?_⟩
  · intro doNot ks c e h
    unfold rialtoFileAfter
    rw [h]
  · intro od ud c eo eu bo bu heo heu hbo hbu hne
    apply update_error_of_not_ok
    intro r hres
    obtain ⟨eo2, eu2, b, heo2, heu2, hob2, hub2, _, _, _, _⟩ := update_ok_spec hres
    rw [heo] at heo2
    injection heo2 with he1
    rw [heu] at heu2
    injection heu2 with he2
    subst he1
    subst he2
    rw [hbo] at hob2
    injection hob2 with hb1
    rw [hbu] at hub2
    injection hub2 with hb2
    exact hne (hb1.trans hb2.symm)
  · intro od ud c eo heo hnot
    apply update_error_of_not_ok
    intro r hres
    obtain ⟨eo2, eu2, b, heo2, heu2, _, _, hset1, hset2, _, _⟩ := update_ok_spec hres
    rw [heo] at heo2
    injection heo2 with he1
    subst he1
    apply hnot
    intro k
    rw [(sameKeySet_iff _ _).mp hset1 k, (sameKeySet_iff _ _).mp hset2 k]
    simp [initrdPartitionNames]
  · intro od ud c eo eu p o n heo heu ho hn hlen
    apply update_error_of_not_ok
    intro r hres
    obtain ⟨eo2, eu2, b, heo2, heu2, _, _, _, _, _, hloop⟩ := update_ok_spec hres
    rw [heo] at heo2
    injection heo2 with he1
    rw [heu] at heu2
    injection heu2 with he2
    subst he1
    subst he2
    obtain ⟨nd, hnd, hndlen⟩ := digestLoop_ok_forall hloop p o (mem_of_dlookup ho)
    rw [hn] at hnd
    injection hnd with hnd2
    subst hnd2
    exact hlen hndlen
  · intro od ud c eo p o rest heo hrest hocc
    apply update_error_of_not_ok
    intro r hres
    obtain ⟨eo2, eu2, b, heo2, heu2, _, _, _, _, _, hloop⟩ := update_ok_spec hres
    rw [heo] at heo2
    injection heo2 with he1
    subst he1
    rw [hrest] at hloop
    obtain ⟨nd, _, _, _, hchg, _⟩ := digestLoop_cons_ok hloop
    exact hchg (replaceAll_id_of_not_occurs nd hocc)

/-- Descriptor pair whose boot digests differ (for the C6 witness). -/
def c6OdBoot : List Descriptor :=
  [("Hash descriptor", DescValue.map [("Partition Name", "boot"), ("Digest", "55")])]

/-- Descriptor pair whose boot digests differ (for the C6 witness). -/
def c6UdBoot : List Descriptor :=
  [("Hash descriptor", DescValue.map [("Partition Name", "boot"), ("Digest", "66")])]

/-- Old descriptors with a partition named weird instead of the initrds. -/
def c6OdWeird : List Descriptor :=
  [("Hash descriptor", DescValue.map [("Partition Name", "boot"), ("Digest", "55")]),
   ("Hash descriptor", DescValue.map [("Partition Name", "weird"), ("Digest", "aa")])]

/-- New descriptors where the initrd_normal digest has a different byte length. -/
def c6UdLen : List Descriptor :=
  [("Hash descriptor", DescValue.map [("Partition Name", "boot"), ("Digest", "55")]),
   ("Hash descriptor", DescValue.map [("Partition Name", "initrd_normal"), ("Digest", "cccc")]),
   ("Hash descriptor", DescValue.map [("Partition Name", "initrd_debug"), ("Digest", "33")])]

/-- Witness for C6: each failure mode exercised at a concrete input, plus the
unchanged-file conclusion at a failing run. -/
theorem C6_witness :
    rialtoFileAfter false [(c6OdBoot, c6UdBoot)] [0] = [0] ∧
      (∃ e, update_initrd_digests_in_rialto c6OdBoot c6UdBoot [0] = Except.error e) ∧
      (∃ e, update_initrd_digests_in_rialto c6OdWeird [] [0] = Except.error e) ∧
      (∃ e, update_initrd_digests_in_rialto c1Od c6UdLen [0] = Except.error e) ∧
      (∃ e, update_initrd_digests_in_rialto c1Od c1Ud [9] = Except.error e) := by
  obtain ⟨h1, h2, h3, h4, h5⟩ := C6_failed_patch_leaves_blob
  refine ⟨?_, ?_, ?_, ?_, ?_⟩
  · exact h1 false [(c6OdBoot, c6UdBoot)] [0]
      (Err.assertionError "Hash descriptor of boot should not change") (by rfl)
  · exact h2 c6OdBoot c6UdBoot [0] [("boot", [85])] [("boot", [102])] [85] [102]
      (by rfl) (by rfl) (by rfl) (by rfl) (by decide)
  · refine h3 c6OdWeird [] [0] [("boot", [85]), ("weird", [170])] (by rfl) ?_
    intro hall
    have := (hall "initrd_normal").mpr (Or.inl rfl)
    revert this
    decide
  · exact h4 c1Od c6UdLen [0]
      [("boot", [85]), ("initrd_normal", [170]), ("initrd_debug", [17])]
      [("boot", [85]), ("initrd_normal", [204, 204]), ("initrd_debug", [51])]
      "initrd_normal" [170] [204, 204]
      (by rfl) (by rfl) (by rfl) (by rfl) (by decide)
  · exact h5 c1Od c1Ud [9]
      [("boot", [85]), ("initrd_normal", [170]), ("initrd_debug", [17])]
      "initrd_normal" [170] [("initrd_debug", [17])]
      (by rfl) (by rfl) (by decide)

/-! ## ConsistencyChecker (check_resigned_image_avb_info, lines 235-270) -/

/-- Worker for extract_hash_descriptors with a pure field transformer f
(drop_digest in the checker): builds the partition-name-keyed dict of
transformed Hash descriptor field maps. -/
def extractHashGo {α : Type} (f : PyDict String → α) :
    List DescValue → PyDict α → Except Err (PyDict α)
  | [], acc => Except.ok acc
  | DescValue.str _ :: _, _ => Except.error Err.typeError
  | DescValue.map m :: rest, acc =>
    match dlookup m "Partition Name" with
    | none => Except.error (Err.keyError "Partition Name")
    | some pn => extractHashGo f rest (dinsert acc pn (f m))

/-- extract_hash_descriptors(descriptors, f). -/
def extract_hash_descriptors {α : Type} (descriptors : List Descriptor)
    (f : PyDict String → α) : Except Err (PyDict α) :=
  extractHashGo f (find_all_values_by_key descriptors "Hash descriptor") []

/-- drop_digest: the descriptor fields without the Digest entry. -/
def drop_digest (descriptor : PyDict String) : PyDict String :=
  derase descriptor "Digest"

/-- The Prop descriptor values as strings, in source order. sorted() assumes
string values; the parser only ever stores strings under the name Prop, and a
map value is modelled as the TypeError Python would raise when comparing. -/
def propStrings : List Descriptor → Except Err (List String)
  | [] => Except.ok []
  | (nm, DescValue.str s) :: rest =>
    if nm = "Prop" then
      match propStrings rest with
      | Except.ok l => Except.ok (s :: l)
      | Except.error e => Except.error e
    else propStrings rest
  | (nm, DescValue.map _) :: rest =>
    if nm = "Prop" then Except.error Err.typeError
    else propStrings rest

/-- The Prop descriptor string values (total form, for well-formed inputs). -/
def propVals (descs : List Descriptor) : List String :=
  descs.filterMap (fun p =>
    if p.1 = "Prop" then
      match p.2 with
      | DescValue.str s => some s
      | DescValue.map _ => none
    else none)

/-- Every Prop descriptor carries a string value (what the parser guarantees). -/
def propsWF (descs : List Descriptor) : Bool :=
  descs.all (fun p =>
    if p.1 = "Prop" then
      match p.2 with
      | DescValue.str _ => true
      | DescValue.map _ => false
    else true)

/-- Every Hash descriptor is a field map with distinct field names that contains
a Partition Name entry (what the parser produces for real avbtool reports). -/
def hashWF (descs : List Descriptor) : Bool :=
  descs.all (fun p =>
    if p.1 = "Hash descriptor" then
      match p.2 with
      | DescValue.str _ => false
      | DescValue.map m => decide (NodupKeys m) && (dlookup m "Partition Name").isSome
    else true)

/-- The partition names declared by a list of (hash) descriptor values. -/
def vsNames (vs : List DescValue) : List String :=
  vs.filterMap (fun v =>
    match v with
    | DescValue.map m => dlookup m "Partition Name"
    | DescValue.str _ => none)

/-- The first descriptor value in the list whose Partition Name is pn. -/
def vsFind (vs : List DescValue) (pn : String) : Option (PyDict String) :=
  vs.findSome? (fun v =>
    match v with
    | DescValue.map m => if dlookup m "Partition Name" = some pn then some m else none
    | DescValue.str _ => none)

/-- The partition names of the Hash descriptors of an image, in order. -/
def hashPartitionNames (descs : List Descriptor) : List String :=
  vsNames (find_all_values_by_key descs "Hash descriptor")

/-- The structured hash-descriptor family of an image, indexed by partition
name (the claim-level view of extract_hash_descriptors). -/
def hashDescFields (descs : List Descriptor) (pn : String) : Option (PyDict String) :=
  vsFind (find_all_values_by_key descs "Hash descriptor") pn

/-- sorted() on a list of strings. -/
def sortStrings (l : List String) : List String :=
  List.insertionSort (fun a b => a ≤ b) l

/-- The top-level property holding the public key fingerprint. -/
def pkKey : String := "Public key (sha1)"

/-- The function-attribute slot handling: the first observed new fingerprint is
stored; later calls assert equality with the stored one. -/
def updateSlot (slot : Option String) (updatedPk : String) : Except Err (Option String) :=
  match slot with
  | none => Except.ok (some updatedPk)
  | some fp =>
    if fp = updatedPk then Except.ok (some fp)
    else
      Except.error (Err.assertionError "All images should be resigned with the same public key")

/-- Result of a successful consistency check: the slot value after the call and
the two info dicts as the call leaves them (it pops the public key from both). -/
structure CheckOut where
  newSlot : Option String
  origAfter : PyDict String
  updAfter : PyDict String
deriving DecidableEq, Repr

/-- The body of check_resigned_image_avb_info once both info records exist. -/
def checkCore (slot : Option String) (origInfo updInfo : PyDict String)
    (originalDescriptors updatedDescriptors : List Descriptor) :
    Except Err CheckOut :=
  match dlookup origInfo pkKey with
  | none => Except.error (Err.keyError pkKey)
  | some originalPk =>
  match dlookup updInfo pkKey with
  | none => Except.error (Err.keyError pkKey)
  | some updatedPk =>
  if originalPk = updatedPk then
    Except.error (Err.assertionError "Value of Public key (sha1) should change")
  else
  match updateSlot slot updatedPk with
  | Except.error e => Except.error e
  | Except.ok slotOut =>
  if dictEqBy (fun x y => x == y) (derase origInfo pkKey) (derase updInfo pkKey) then
    if originalDescriptors.length = updatedDescriptors.length then
      match propStrings originalDescriptors with
      | Except.error e => Except.error e
      | Except.ok originalProps =>
      match propStrings updatedDescriptors with
      | Except.error e => Except.error e
      | Except.ok updatedProps =>
      if sortStrings originalProps = sortStrings updatedProps then
        match extract_hash_descriptors originalDescriptors drop_digest with
        | Except.error e => Except.error e
        | Except.ok originalHash =>
        match extract_hash_descriptors updatedDescriptors drop_digest with
        | Except.error e => Except.error e
        | Except.ok updatedHash =>
        if dictEqBy (fun x y => dictEqBy (fun s t => s == t) x y) originalHash updatedHash then
          Except.ok ⟨slotOut, derase origInfo pkKey, derase updInfo pkKey⟩
        else
          Except.error (Err.assertionError "Hash descriptors parameters should be the same")
      else Except.error (Err.assertionError "Prop descriptors should be the same")
    else Except.error (Err.assertionError "Number of descriptors should be the same")
  else Except.error (Err.assertionError "Original info and updated info should be the same")

/-- Models check_resigned_image_avb_info, with the memoized new_public_key slot
passed in and returned explicitly (its only cross-call state). -/
def check_resigned_image_avb_info (slot : Option String)
    (originalInfo updatedInfo : Option (PyDict String))
    (originalDescriptors updatedDescriptors : List Descriptor) :
    Except Err CheckOut :=
  match originalInfo with
  | none => Except.error (Err.assertionError "no avbinfo on original image")
  | some origInfo =>
    match updatedInfo with
    | none => Except.error (Err.assertionError "no avbinfo on resigned image")
    | some updInfo =>
      checkCore slot origInfo updInfo originalDescriptors updatedDescriptors

/-- One signing run: the sequence of consistency checks, threading the
new_public_key slot from none through every check. -/
def runChecks :
    Option String →
    List (Option (PyDict String) × Option (PyDict String) ×
      List Descriptor × List Descriptor) →
    Except Err (Option String)
  | slot, [] => Except.ok slot
  | slot, (o, u, od, ud) :: rest =>
    match check_resigned_image_avb_info slot o u od ud with
    | Except.error e => Except.error e
    | Except.ok out => runChecks out.newSlot rest

theorem mem_find_all_values {descs : List Descriptor} {key : String} {v : DescValue}
    (h : v ∈ find_all_values_by_key descs key) : (key, v) ∈ descs := by
  simp only [find_all_values_by_key, List.mem_map, List.mem_filter] at h
  obtain ⟨p, ⟨hp, hkey⟩, hv⟩ := h
  obtain ⟨n, w⟩ := p
  simp only at hv
  subst hv
  simp only [decide_eq_true_eq] at hkey
  subst hkey
  exact hp

theorem vsFind_mem {vs : List DescValue} {pn : String} {m : PyDict String}
    (h : vsFind vs pn = some m) :
    DescValue.map m ∈ vs ∧ dlookup m "Partition Name" = some pn := by
  induction vs with
  | nil => simp [vsFind] at h
  | cons v rest ih =>
    cases v with
    | str s =>
      simp only [vsFind, List.findSome?] at h ih
      exact ⟨List.mem_cons_of_mem _ (ih h).1, (ih h).2⟩
    | map m0 =>
      simp only [vsFind, List.findSome?] at h ih
      by_cases hpn : dlookup m0 "Partition Name" = some pn
      · rw [if_pos hpn] at h
        injection h with h2
        subst h2
        exact ⟨List.mem_cons_self _ _, hpn⟩
      · rw [if_neg hpn] at h
        exact ⟨List.mem_cons_of_mem _ (ih h).1, (ih h).2⟩

theorem mem_vsNames_of {vs : List DescValue} {m : PyDict String} {pn : String}
    (hm : DescValue.map m ∈ vs) (hpn : dlookup m "Partition Name" = some pn) :
    pn ∈ vsNames vs := by
  simp only [vsNames, List.mem_filterMap]
  exact ⟨DescValue.map m, hm, hpn⟩

theorem extractHashGo_spec {α : Type} (f : PyDict String → α) (vs : List DescValue)
    (hwf : ∀ v ∈ vs, ∃ m, v = DescValue.map m ∧
      ∃ pn, dlookup m "Partition Name" = some pn)
    (hnd : (vsNames vs).Nodup) :
    ∀ acc : PyDict α, NodupKeys acc →
      ∃ E, extractHashGo f vs acc = Except.ok E ∧ NodupKeys E ∧
        ∀ pn, dlookup E pn =
          match vsFind vs pn with
          | some m => some (f m)
          | none => dlookup acc pn := by
  induction vs with
  | nil =>
    intro acc hacc
    refine ⟨acc, rfl, hacc, ?_⟩
    intro pn
    simp [vsFind]
  | cons v rest ih =>
    intro acc hacc
    obtain ⟨m, hv, pn0, hpn0⟩ := hwf v (List.mem_cons_self _ _)
    subst hv
    have hnames : vsNames (DescValue.map m :: rest) = pn0 :: vsNames rest := by
      simp [vsNames, hpn0]
    rw [hnames] at hnd
    have hnd2 := List.nodup_cons.mp hnd
    obtain ⟨E, hE, hEnd, hElook⟩ :=
      ih (fun w hw => hwf w (List.mem_cons_of_mem _ hw)) hnd2.2
        (dinsert acc pn0 (f m)) (nodupKeys_dinsert pn0 (f m) hacc)
    refine ⟨E, ?_, hEnd, ?_⟩
    · simp only [extractHashGo, hpn0]
      exact hE
    · intro pn
      rw [hElook pn]
      by_cases hpn : pn = pn0
      · subst hpn
        have hfind : vsFind rest pn = none := by
          cases hf : vsFind rest pn with
          | none => rfl
          | some m2 =>
            obtain ⟨hmem, hlook⟩ := vsFind_mem hf
            exact absurd (mem_vsNames_of hmem hlook) hnd2.1
        rw [hfind]
        simp [vsFind, List.findSome?, hpn0, dlookup_dinsert]
      · have hne : ¬ dlookup m "Partition Name" = some pn := by
          rw [hpn0]
          intro hcon
          injection hcon with hcon2
          exact hpn hcon2.symm
        have hfind : vsFind (DescValue.map m :: rest) pn = vsFind rest pn := by
          simp [vsFind, List.findSome?, if_neg hne]
        rw [hfind]
        cases vsFind rest pn with
        | some m2 => rfl
        | none =>
          have hpn0ne : ¬ pn0 = pn := fun hcontra => hpn hcontra.symm
          rw [dlookup_dinsert, if_neg hpn0ne]

theorem extract_hash_spec {α : Type} (f : PyDict String → α) {descs : List Descriptor}
    (hwf : hashWF descs = true) (hnd : (hashPartitionNames descs).Nodup) :
    ∃ E, extract_hash_descriptors descs f = Except.ok E ∧ NodupKeys E ∧
      ∀ pn, dlookup E pn = (hashDescFields descs pn).map f := by
  have hwf2 : ∀ v ∈ find_all_values_by_key descs "Hash descriptor",
      ∃ m, v = DescValue.map m ∧ ∃ pn, dlookup m "Partition Name" = some pn := by
    intro v hv
    have hmem := mem_find_all_values hv
    rw [hashWF, List.all_eq_true] at hwf
    have hthis := hwf _ hmem
    cases v with
    | str s => simp at hthis
    | map m =>
      simp [Option.isSome_iff_exists] at hthis
      exact ⟨m, rfl, hthis.2⟩
  obtain ⟨E, hE, hEnd, hElook⟩ :=
    extractHashGo_spec f _ hwf2 hnd [] (by simp [NodupKeys, dkeys])
  refine ⟨E, hE, hEnd, ?_⟩
  intro pn
  rw [hElook pn, hashDescFields]
  cases vsFind (find_all_values_by_key descs "Hash descriptor") pn <;> rfl

theorem hashWF_fields_nodup {descs : List Descriptor} {pn : String} {m : PyDict String}
    (hwf : hashWF descs = true) (h : hashDescFields descs pn = some m) :
    NodupKeys m := by
  obtain ⟨hmem, _⟩ := vsFind_mem h
  have hmem2 := mem_find_all_values hmem
  rw [hashWF, List.all_eq_true] at hwf
  have hthis := hwf _ hmem2
  simp [Option.isSome_iff_exists] at hthis
  exact hthis.1

theorem propStrings_wf_eq {descs : List Descriptor} (hwf : propsWF descs = true) :
    propStrings descs = Except.ok (propVals descs) := by
  induction descs with
  | nil => rfl
  | cons p rest ih =>
    rw [propsWF, List.all_cons, Bool.and_eq_true] at hwf
    obtain ⟨hp, hrest⟩ := hwf
    have ihr := ih hrest
    obtain ⟨nm, v⟩ := p
    cases v with
    | str s =>
      by_cases hnm : nm = "Prop"
      · subst hnm
        simp [propStrings, propVals, ihr]
      · simp [propStrings, propVals, hnm, ihr]
    | map m =>
      by_cases hnm : nm = "Prop"
      · subst hnm
        simp at hp
      · simp [propStrings, propVals, hnm, ihr]

theorem sortStrings_eq_iff (a b : List String) :
    sortStrings a = sortStrings b ↔ a.Perm b := by
  constructor
  · intro h
    have ha := List.perm_insertionSort (fun x y : String => x ≤ y) a
    have hb := List.perm_insertionSort (fun x y : String => x ≤ y) b
    rw [sortStrings, sortStrings] at h
    exact ha.symm.trans (h ▸ hb)
  · intro h
    rw [sortStrings, sortStrings]
    refine List.eq_of_perm_of_sorted ?_
      (List.sorted_insertionSort _ a) (List.sorted_insertionSort _ b)
    exact (List.perm_insertionSort _ a).trans
      (h.trans (List.perm_insertionSort _ b).symm)

theorem updateSlot_ok {slot : Option String} {pu s : String}
    (hmm : updateSlot slot pu = Except.ok (some s)) :
    s = pu ∧ ∀ fp, slot = some fp → fp = pu := by
  cases slot with
  | none =>
    simp only [updateSlot] at hmm
    injection hmm with h2
    injection h2 with h3
    exact ⟨h3.symm, by intro fp h; cases h⟩
  | some fp0 =>
    simp only [updateSlot] at hmm
    split at hmm
    next heq =>
      injection hmm with h2
      injection h2 with h3
      subst heq
      exact ⟨h3.symm, by intro fp h; injection h with h4; exact h4 ▸ rfl⟩
    next heq => simp at hmm

theorem updateSlot_ok_shape {slot : Option String} {pu : String} {s : Option String}
    (hmm : updateSlot slot pu = Except.ok s) : s = some pu := by
  cases slot with
  | none =>
    simp only [updateSlot] at hmm
    injection hmm with h2
    exact h2.symm
  | some fp0 =>
    simp only [updateSlot] at hmm
    split at hmm
    next heq =>
      injection hmm with h2
      subst heq
      exact h2.symm
    next heq => simp at hmm

/-- Everything a successful consistency check implies, read off the code. -/
theorem check_ok_spec {slot : Option String} {o u : PyDict String}
    {od ud : List Descriptor} {out : CheckOut}
    (h0 : check_resigned_image_avb_info slot (some o) (some u) od ud = Except.ok out) :
    ∃ po pu,
      dlookup o pkKey = some po ∧ dlookup u pkKey = some pu ∧ po ≠ pu ∧
      out.newSlot = some pu ∧ (∀ fp, slot = some fp → fp = pu) ∧
      out.origAfter = derase o pkKey ∧ out.updAfter = derase u pkKey ∧
      dictEqBy (fun x y => x == y) (derase o pkKey) (derase u pkKey) = true ∧
      od.length = ud.length ∧
      (∃ a b, propStrings od = Except.ok a ∧ propStrings ud = Except.ok b ∧
        sortStrings a = sortStrings b) ∧
      (∃ E F, extract_hash_descriptors od drop_digest = Except.ok E ∧
        extract_hash_descriptors ud drop_digest = Except.ok F ∧
        dictEqBy (fun x y => dictEqBy (fun s t => s == t) x y) E F = true) := by
  have h : checkCore slot o u od ud = Except.ok out := h0
  unfold checkCore at h
  split at h
  · simp at h
  next po hpo =>
    split at h
    · simp at h
    next pu hpu =>
      split at h
      next heq => simp at h
      next hne =>
        split at h
        · simp at h
        next slotOut hslot =>
          split at h
          next hdict =>
            split at h
            next hlen =>
              split at h
              · simp at h
              next a ha =>
                split at h
                · simp at h
                next b hb =>
                  split at h
                  next hsort =>
                    split at h
                    · simp at h
                    next E hE =>
                      split at h
                      · simp at h
                      next F hF =>
                        split at h
                        next hEF =>
                          injection h with h2
                          subst h2
                          have hshape := updateSlot_ok_shape hslot
                          subst hshape
                          obtain ⟨hs1, hs2⟩ := updateSlot_ok hslot
                          exact ⟨po, pu, hpo, hpu, hne, rfl, hs2, rfl, rfl,
                            hdict, hlen, ⟨a, b, ha, hb, hsort⟩, ⟨E, F, hE, hF, hEF⟩⟩
                        next hEF => simp at h
                  next hsort => simp at h
            next hlen => simp at h
          next hdict => simp at h

/-- A consistency check with an empty slot succeeds when every compared part
matches (constructive direction). -/
theorem check_none_ok {o u : PyDict String} {od ud : List Descriptor}
    {po pu : String} {a b : List String} {E F : PyDict (PyDict String)}
    (hpo : dlookup o pkKey = some po) (hpu : dlookup u pkKey = some pu) (hne : po ≠ pu)
    (hdict : dictEqBy (fun x y => x == y) (derase o pkKey) (derase u pkKey) = true)
    (hlen : od.length = ud.length)
    (ha : propStrings od = Except.ok a) (hb : propStrings ud = Except.ok b)
    (hsort : sortStrings a = sortStrings b)
    (hE : extract_hash_descriptors od drop_digest = Except.ok E)
    (hF : extract_hash_descriptors ud drop_digest = Except.ok F)
    (hEF : dictEqBy (fun x y => dictEqBy (fun s t => s == t) x y) E F = true) :
    check_resigned_image_avb_info none (some o) (some u) od ud =
      Except.ok ⟨some pu, derase o pkKey, derase u pkKey⟩ := by
  show checkCore none o u od ud = Except.ok ⟨some pu, derase o pkKey, derase u pkKey⟩
  unfold checkCore
  rw [hpo, hpu]
  simp only [if_neg hne, updateSlot, hdict, hlen, ha, hb, hsort, hE, hF, hEF, if_true]

/-- C3. With an empty fingerprint slot (value of the first check in a run), the
consistency check succeeds exactly when: both metadata records are present (the
other two conjuncts), the new fingerprint differs from the old, every other
top-level property is unchanged, the descriptor counts agree, the Prop
descriptors agree as an unordered multiset, and the hash descriptors agree
field-for-field once the Digest field is dropped. -/
theorem C3_consistency_check_iff
    (o u : PyDict String) (od ud : List Descriptor) (po pu : String)
    (ho : NodupKeys o) (hu : NodupKeys u)
    (hpo : dlookup o pkKey = some po) (hpu : dlookup u pkKey = some pu)
    (hwpO : propsWF od = true) (hwpU : propsWF ud = true)
    (hwhO : hashWF od = true) (hwhU : hashWF ud = true)
    (hnO : (hashPartitionNames od).Nodup) (hnU : (hashPartitionNames ud).Nodup) :
    ((∃ out, check_resigned_image_avb_info none (some o) (some u) od ud = Except.ok out) ↔
      (po ≠ pu ∧
        (∀ k, k ≠ pkKey → dlookup o k = dlookup u k) ∧
        od.length = ud.length ∧
        (propVals od).Perm (propVals ud) ∧
        (∀ pn, optionRel
          (fun m1 m2 => ∀ k, k ≠ "Digest" → dlookup m1 k = dlookup m2 k)
          (hashDescFields od pn) (hashDescFields ud pn)))) ∧
    (∀ (slot : Option String) (u2 : Option (PyDict String)) (od2 ud2 : List Descriptor),
      check_resigned_image_avb_info slot none u2 od2 ud2 =
        Except.error (Err.assertionError "no avbinfo on original image")) ∧
    (∀ (slot : Option String) (o2 : PyDict String) (od2 ud2 : List Descriptor),
      check_resigned_image_avb_info slot (some o2) none od2 ud2 =
        Except.error (Err.assertionError "no avbinfo on resigned image")) := by
  obtain ⟨Eo, hEo, hEoNd, hEoLook⟩ := extract_hash_spec drop_digest hwhO hnO
  obtain ⟨Fu, hFu, hFuNd, hFuLook⟩ := extract_hash_spec drop_digest hwhU hnU
  refine ⟨?_, fun slot u2 od2 ud2 => rfl, fun slot o2 od2 ud2 => rfl⟩
  constructor
  · rintro ⟨out, hok⟩
    obtain ⟨po2, pu2, hpo2, hpu2, hne, _, _, _, _, hdict, hlen,
      ⟨a, b, ha, hb, hsort⟩, ⟨E, F, hE, hF, hEF⟩⟩ := check_ok_spec hok
    rw [hpo] at hpo2
    injection hpo2 with hpo3
    rw [hpu] at hpu2
    injection hpu2 with hpu3
    subst hpo3
    subst hpu3
    have hdd := (dictEq_iff _ _ (nodupKeys_derase _ ho) (nodupKeys_derase _ hu)).mp hdict
    refine ⟨hne, ?_, hlen, ?_, ?_⟩
    · intro k hk
      have h2 := hdd k
      rw [dlookup_derase, dlookup_derase, if_neg hk, if_neg hk] at h2
      exact h2
    · rw [propStrings_wf_eq hwpO] at ha
      rw [propStrings_wf_eq hwpU] at hb
      injection ha with ha2
      injection hb with hb2
      subst ha2
      subst hb2
      exact (sortStrings_eq_iff _ _).mp hsort
    · rw [hEo] at hE
      injection hE with hE2
      subst hE2
      rw [hFu] at hF
      injection hF with hF2
      subst hF2
      have hfam := (dictEqBy_iff _ _ _ hEoNd hFuNd).mp hEF
      intro pn
      have hpn := hfam pn
      rw [hEoLook pn, hFuLook pn] at hpn
      cases hmo : hashDescFields od pn with
      | none =>
        cases hmu : hashDescFields ud pn with
        | none => exact trivial
        | some m2 =>
          rw [hmo, hmu] at hpn
          exact (hpn : False).elim
      | some m1 =>
        cases hmu : hashDescFields ud pn with
        | none =>
          rw [hmo, hmu] at hpn
          exact (hpn : False).elim
        | some m2 =>
          rw [hmo, hmu] at hpn
          have hinner : dictEqBy (fun s t => s == t) (drop_digest m1) (drop_digest m2) =
              true := hpn
          have hm1 : NodupKeys (drop_digest m1) :=
            nodupKeys_derase _ (hashWF_fields_nodup hwhO hmo)
          have hm2 : NodupKeys (drop_digest m2) :=
            nodupKeys_derase _ (hashWF_fields_nodup hwhU hmu)
          have hdd2 := (dictEq_iff _ _ hm1 hm2).mp hinner
          show ∀ k, k ≠ "Digest" → dlookup m1 k = dlookup m2 k
          intro k hk
          have h3 := hdd2 k
          rw [drop_digest, drop_digest, dlookup_derase, dlookup_derase,
            if_neg hk, if_neg hk] at h3
          exact h3
  · rintro ⟨hne, hprops, hlen, hperm, hhash⟩
    have hdict : dictEqBy (fun x y => x == y) (derase o pkKey) (derase u pkKey) = true := by
      refine (dictEq_iff _ _ (nodupKeys_derase _ ho) (nodupKeys_derase _ hu)).mpr ?_
      intro k
      rw [dlookup_derase, dlookup_derase]
      by_cases hk : k = pkKey
      · simp [hk]
      · rw [if_neg hk, if_neg hk]
        exact hprops k hk
    have hEF : dictEqBy (fun x y => dictEqBy (fun s t => s == t) x y) Eo Fu = true := by
      refine (dictEqBy_iff _ _ _ hEoNd hFuNd).mpr ?_
      intro pn
      rw [hEoLook pn, hFuLook pn]
      have hpn := hhash pn
      cases hmo : hashDescFields od pn with
      | none =>
        cases hmu : hashDescFields ud pn with
        | none => exact trivial
        | some m2 =>
          rw [hmo, hmu] at hpn
          exact (hpn : False).elim
      | some m1 =>
        cases hmu : hashDescFields ud pn with
        | none =>
          rw [hmo, hmu] at hpn
          exact (hpn : False).elim
        | some m2 =>
          rw [hmo, hmu] at hpn
          have hpn2 : ∀ k, k ≠ "Digest" → dlookup m1 k = dlookup m2 k := hpn
          have hm1 : NodupKeys (drop_digest m1) :=
            nodupKeys_derase _ (hashWF_fields_nodup hwhO hmo)
          have hm2 : NodupKeys (drop_digest m2) :=
            nodupKeys_derase _ (hashWF_fields_nodup hwhU hmu)
          show dictEqBy (fun s t => s == t) (drop_digest m1) (drop_digest m2) = true
          refine (dictEq_iff _ _ hm1 hm2).mpr ?_
          intro k
          rw [drop_digest, drop_digest, dlookup_derase, dlookup_derase]
          by_cases hk : k = "Digest"
          · simp [hk]
          · rw [if_neg hk, if_neg hk]
            exact hpn2 k hk
    exact ⟨_, check_none_ok hpo hpu hne hdict hlen
      (propStrings_wf_eq hwpO) (propStrings_wf_eq hwpU)
      ((sortStrings_eq_iff _ _).mpr hperm) hEo hFu hEF⟩

/-- Old top-level properties of the sample image (fingerprint plus one other). -/
def imgInfoOld : PyDict String :=
  [("Public key (sha1)", "oldfp"), ("Algorithm", "SHA256_RSA4096")]

/-- New top-level properties: only the fingerprint differs. -/
def imgInfoNew : PyDict String :=
  [("Public key (sha1)", "newfp"), ("Algorithm", "SHA256_RSA4096")]

/-- Sample descriptors: one Prop and one hash descriptor. -/
def imgDescs : List Descriptor :=
  [("Prop", DescValue.str "a"),
   ("Hash descriptor",
     DescValue.map [("Partition Name", "boot"), ("Digest", "aa"), ("Salt", "bb")])]

/-- Witness for C3: a pair differing only in the fingerprint passes the check. -/
theorem C3_witness :
    ∃ out, check_resigned_image_avb_info none (some imgInfoOld) (some imgInfoNew)
      imgDescs imgDescs = Except.ok out :=
  (C3_consistency_check_iff imgInfoOld imgInfoNew imgDescs imgDescs "oldfp" "newfp"
    (by decide) (by decide) (by rfl) (by rfl) (by rfl) (by rfl) (by rfl) (by rfl)
    (by decide) (by decide)).1.mpr
    ⟨by decide,
      by
        intro k hk
        have hne : ¬ ("Public key (sha1)" = k) := fun hcon => hk hcon.symm
        simp [imgInfoOld, imgInfoNew, dlookup, hne],
      rfl,
      List.Perm.refl _,
      by
        intro pn
        cases h : hashDescFields imgDescs pn with
        | none => simp [optionRel]
        | some m => simp [optionRel]⟩

theorem runChecks_some {fp : String}
    {inputs : List (Option (PyDict String) × Option (PyDict String) ×
      List Descriptor × List Descriptor)} {s : Option String}
    (h : runChecks (some fp) inputs = Except.ok s) :
    s = some fp ∧
      ∀ inp ∈ inputs, ∃ u2, inp.2.1 = some u2 ∧ dlookup u2 pkKey = some fp := by
  induction inputs with
  | nil =>
    simp only [runChecks] at h
    injection h with h2
    exact ⟨h2.symm, by intro inp hmem; simp at hmem⟩
  | cons inp rest ih =>
    obtain ⟨o, u, od, ud⟩ := inp
    simp only [runChecks] at h
    split at h
    · simp at h
    next out hchk =>
      cases o with
      | none => simp [check_resigned_image_avb_info] at hchk
      | some o2 =>
        cases u with
        | none => simp [check_resigned_image_avb_info] at hchk
        | some u2 =>
          obtain ⟨po, pu, _, hpu, _, hnew, hback, _, _, _, _, _, _⟩ := check_ok_spec hchk
          have hfp : pu = fp := (hback fp rfl).symm
          subst hfp
          rw [hnew] at h
          obtain ⟨hs, hall⟩ := ih h
          refine ⟨hs, ?_⟩
          intro inp2 hmem
          rcases List.mem_cons.mp hmem with h0 | h0
          · subst h0
            exact ⟨u2, rfl, hpu⟩
          · exact hall inp2 h0

/-- C5. In one signing run the slot starts empty; if every check succeeds, each
checked image's new public-key fingerprint equals the final slot value, so all
images carry the same new key. Moreover a check that runs with an occupied slot
can only succeed with that very fingerprint and leaves the slot unchanged, and
the first successful check records its image's new fingerprint in the slot. -/
theorem C5_same_key_across_run
    (inputs : List (Option (PyDict String) × Option (PyDict String) ×
      List Descriptor × List Descriptor)) (s : Option String)
    (h : runChecks none inputs = Except.ok s) :
    (∀ inp ∈ inputs, ∃ fp u2, s = some fp ∧ inp.2.1 = some u2 ∧
      dlookup u2 pkKey = some fp) ∧
    (∀ (fp : String) (o2 u2 : Option (PyDict String)) (od2 ud2 : List Descriptor)
        (out : CheckOut),
      check_resigned_image_avb_info (some fp) o2 u2 od2 ud2 = Except.ok out →
      out.newSlot = some fp ∧
        ∃ w, u2 = some w ∧ dlookup w pkKey = some fp) ∧
    (∀ (o2 u2 : Option (PyDict String)) (od2 ud2 : List Descriptor) (out : CheckOut),
      check_resigned_image_avb_info none o2 u2 od2 ud2 = Except.ok out →
      ∃ w, u2 = some w ∧ out.newSlot = dlookup w pkKey) := by
  refine ⟨?_, ?_, ?_⟩
  · cases inputs with
    | nil => intro inp hmem; simp at hmem
    | cons inp rest =>
      obtain ⟨o, u, od, ud⟩ := inp
      simp only [runChecks] at h
      split at h
      · simp at h
      next out hchk =>
        cases o with
        | none => simp [check_resigned_image_avb_info] at hchk
        | some o2 =>
          cases u with
          | none => simp [check_resigned_image_avb_info] at hchk
          | some u2 =>
            obtain ⟨po, pu, _, hpu, _, hnew, _, _, _, _, _, _, _⟩ := check_ok_spec hchk
            rw [hnew] at h
            obtain ⟨hs, hall⟩ := runChecks_some h
            intro inp2 hmem
            rcases List.mem_cons.mp hmem with h0 | h0
            · subst h0
              exact ⟨pu, u2, hs, rfl, hpu⟩
            · obtain ⟨w, hw1, hw2⟩ := hall inp2 h0
              exact ⟨pu, w, hs, hw1, hw2⟩
  · intro fp o2 u2 od2 ud2 out hchk
    cases o2 with
    | none => simp [check_resigned_image_avb_info] at hchk
    | some o3 =>
      cases u2 with
      | none => simp [check_resigned_image_avb_info] at hchk
      | some u3 =>
        obtain ⟨po, pu, _, hpu, _, hnew, hback, _, _, _, _, _, _⟩ := check_ok_spec hchk
        have hfp : pu = fp := (hback fp rfl).symm
        subst hfp
        exact ⟨hnew, u3, rfl, hpu⟩
  · intro o2 u2 od2 ud2 out hchk
    cases o2 with
    | none => simp [check_resigned_image_avb_info] at hchk
    | some o3 =>
      cases u2 with
      | none => simp [check_resigned_image_avb_info] at hchk
      | some u3 =>
        obtain ⟨po, pu, _, hpu, _, hnew, _, _, _, _, _, _, _⟩ := check_ok_spec hchk
        refine ⟨u3, rfl, ?_⟩
        rw [hnew, hpu]

/-- Witness for C5: two checks of the same image pair in one run; the first
entry's new fingerprint is the final slot value. -/
theorem C5_witness :
    ∃ fp u2, (some "newfp" : Option String) = some fp ∧
      (some imgInfoNew : Option (PyDict String)) = some u2 ∧
      dlookup u2 pkKey = some fp :=
  (C5_same_key_across_run
    [(some imgInfoOld, some imgInfoNew, imgDescs, imgDescs),
     (some imgInfoOld, some imgInfoNew, imgDescs, imgDescs)]
    (some "newfp") (by rfl)).1
    (some imgInfoOld, some imgInfoNew, imgDescs, imgDescs) (by simp)

/-- C7 counterexample. The check succeeds on a pair differing only in the
fingerprint, yet the metadata records it hands back are NOT the ones passed in:
dict.pop removed the fingerprint entry from both in place. -/
theorem C7_counterexample :
    check_resigned_image_avb_info none (some imgInfoOld) (some imgInfoNew)
        imgDescs imgDescs =
      Except.ok ⟨some "newfp", [("Algorithm", "SHA256_RSA4096")],
        [("Algorithm", "SHA256_RSA4096")]⟩ ∧
      ([("Algorithm", "SHA256_RSA4096")] : PyDict String) ≠ imgInfoOld ∧
      ([("Algorithm", "SHA256_RSA4096")] : PyDict String) ≠ imgInfoNew :=
  ⟨by rfl, by decide, by decide⟩

/-- C7 as amended. The consistency check does mutate the two metadata records it
is given, but only by popping the public-key fingerprint entry from each: every
other key keeps its value, and descriptor lists are not touched; in particular
the records after a successful check differ from the ones passed in. -/
theorem C7_amended_check_pops_fingerprint
    (slot : Option String) (o u : PyDict String) (od ud : List Descriptor)
    (out : CheckOut)
    (h : check_resigned_image_avb_info slot (some o) (some u) od ud = Except.ok out) :
    out.origAfter = derase o pkKey ∧ out.updAfter = derase u pkKey ∧
      dlookup out.origAfter pkKey = none ∧ dlookup out.updAfter pkKey = none ∧
      (∀ k, k ≠ pkKey → dlookup out.origAfter k = dlookup o k) ∧
      (∀ k, k ≠ pkKey → dlookup out.updAfter k = dlookup u k) ∧
      out.origAfter ≠ o ∧ out.updAfter ≠ u := by
  obtain ⟨po, pu, hpo, hpu, _, _, _, hoa, hua, _, _, _, _⟩ := check_ok_spec h
  have h1 : dlookup out.origAfter pkKey = none := by
    rw [hoa, dlookup_derase, if_pos rfl]
  have h2 : dlookup out.updAfter pkKey = none := by
    rw [hua, dlookup_derase, if_pos rfl]
  refine ⟨hoa, hua, h1, h2, ?_, ?_, ?_, ?_⟩
  · intro k hk
    rw [hoa, dlookup_derase, if_neg hk]
  · intro k hk
    rw [hua, dlookup_derase, if_neg hk]
  · intro heq
    rw [heq] at h1
    rw [h1] at hpo
    cases hpo
  · intro heq
    rw [heq] at h2
    rw [h2] at hpu
    cases hpu

/-- Witness for C7's amended theorem at a concrete successful check. -/
theorem C7_amended_witness :
    CheckOut.origAfter ⟨some "newfp", [("Algorithm", "SHA256_RSA4096")],
        [("Algorithm", "SHA256_RSA4096")]⟩ = derase imgInfoOld pkKey ∧
      CheckOut.updAfter ⟨some "newfp", [("Algorithm", "SHA256_RSA4096")],
        [("Algorithm", "SHA256_RSA4096")]⟩ = derase imgInfoNew pkKey ∧
      dlookup (CheckOut.origAfter ⟨some "newfp", [("Algorithm", "SHA256_RSA4096")],
        [("Algorithm", "SHA256_RSA4096")]⟩) pkKey = none ∧
      dlookup (CheckOut.updAfter ⟨some "newfp", [("Algorithm", "SHA256_RSA4096")],
        [("Algorithm", "SHA256_RSA4096")]⟩) pkKey = none ∧
      (∀ k, k ≠ pkKey →
        dlookup (CheckOut.origAfter ⟨some "newfp", [("Algorithm", "SHA256_RSA4096")],
          [("Algorithm", "SHA256_RSA4096")]⟩) k = dlookup imgInfoOld k) ∧
      (∀ k, k ≠ pkKey →
        dlookup (CheckOut.updAfter ⟨some "newfp", [("Algorithm", "SHA256_RSA4096")],
          [("Algorithm", "SHA256_RSA4096")]⟩) k = dlookup imgInfoNew k) ∧
      CheckOut.origAfter ⟨some "newfp", [("Algorithm", "SHA256_RSA4096")],
        [("Algorithm", "SHA256_RSA4096")]⟩ ≠ imgInfoOld ∧
      CheckOut.updAfter ⟨some "newfp", [("Algorithm", "SHA256_RSA4096")],
        [("Algorithm", "SHA256_RSA4096")]⟩ ≠ imgInfoNew :=
  C7_amended_check_pops_fingerprint none imgInfoOld imgInfoNew imgDescs imgDescs
    ⟨some "newfp", [("Algorithm", "SHA256_RSA4096")], [("Algorithm", "SHA256_RSA4096")]⟩
    (by rfl)

/-! ## MetadataParser (AvbInfo, lines 162-219) -/

/-- Lexicographic comparison of character lists by code point — exactly the
Python string order used when the parser compares indent strings. -/
def charListLe : List Char → List Char → Bool
  | [], _ => true
  | _ :: _, [] => false
  | a :: as, b :: bs =>
    if a < b then true else if b < a then false else charListLe as bs

/-- Strict lexicographic comparison of character lists. -/
def charListLt : List Char → List Char → Bool
  | [], [] => false
  | [], _ :: _ => true
  | _ :: _, [] => false
  | a :: as, b :: bs =>
    if a < b then true else if b < a then false else charListLt as bs

/-- Python string comparison s1 <= s2, by code points. -/
def strLe (a b : String) : Bool := charListLe a.toList b.toList

/-- Python string comparison s1 < s2, by code points. -/
def strLt (a b : String) : Bool := charListLt a.toList b.toList

theorem charListLt_eq_not_charListLe (a b : List Char) :
    charListLt a b = !(charListLe b a) := by
  induction a generalizing b with
  | nil =>
    cases b <;> rfl
  | cons x as ih =>
    cases b with
    | nil => rfl
    | cons y bs =>
      by_cases h1 : x < y
      · have h2 : ¬ y < x := lt_asymm h1
        simp [charListLt, charListLe, h1, h2]
      · by_cases h2 : y < x
        · simp [charListLt, charListLe, h1, h2]
        · simp [charListLt, charListLe, h1, h2, ih bs]

theorem strLt_eq_not_strLe (a b : String) : strLt a b = !(strLe b a) :=
  charListLt_eq_not_charListLe a.toList b.toList

/-- The characters the Python \s class matches. -/
def pyIsSpace (c : Char) : Bool :=
  c = ' ' || c = '\t' || c = '\n' || c = '\r' || c = '\x0b' || c = '\x0c'

/-- Python str.split with a one-character separator: splits at every
occurrence, keeping empty segments. -/
def splitOnChar (sep : Char) : List Char → List (List Char)
  | [] => [[]]
  | c :: rest =>
    match splitOnChar sep rest with
    | [] => [[]]
    | grp :: grps => if c = sep then [] :: grp :: grps else (c :: grp) :: grps

/-- Python str.strip(): drop leading and trailing whitespace. -/
def pyStrip (cs : List Char) : List Char :=
  ((cs.dropWhile pyIsSpace).reverse.dropWhile pyIsSpace).reverse

/-- One line as the matcher regex (\s*)([^:]+):\s*(.*) sees it: the groups
(indent, key, value), or none when the line does not match. The indent is the
whitespace prefix, shortened by one character when everything before the first
colon is whitespace, because the key group needs at least one character
(Python backtracking). The value is what follows the colon minus its leading
whitespace. -/
def lineToken (line : List Char) : Option (String × String × String) :=
  match line.findIdx? (fun c => c = ':') with
  | none => none
  | some i =>
    if i = 0 then none
    else
      let w := (line.takeWhile pyIsSpace).length
      let il := min w (i - 1)
      some (String.mk (line.take il),
        String.mk ((line.drop il).take (i - il)),
        String.mk ((line.drop (i + 1)).dropWhile pyIsSpace))

/-- A parsed line: indent, key, value. -/
abbrev Token := String × String × String

/-- The token stream of a report: non-matching lines are skipped. -/
def tokenizeLines (lines : List String) : List Token :=
  lines.filterMap (fun l => lineToken l.toList)

/-- A descriptor as stored by ReadDescriptors: Prop descriptors hold their
string value, every other descriptor a dict of fields. -/
def mkDescriptor (nm cv : String) (fields : PyDict String) : DescValue :=
  if nm = "Prop" then DescValue.str cv else DescValue.map fields

/-- ReadDescriptors(cur_indent, cur_name, cur_value) plus the trailing
generator loop: field lines (indent greater than the current descriptor's) are
assigned into the current descriptor dict; a line with indent less than or
equal starts the next descriptor; assigning a field into a Prop descriptor
(a str in Python) raises a TypeError. -/
def readDescLoop : String → String → String → PyDict String → List Token →
    Except Err (List Descriptor)
  | _, cn, cv, fields, [] => Except.ok [(cn, mkDescriptor cn cv fields)]
  | ci, cn, cv, fields, (indent, key, value) :: rest =>
    if strLe indent ci then
      match readDescLoop indent key value [] rest with
      | Except.error e => Except.error e
      | Except.ok ds => Except.ok ((cn, mkDescriptor cn cv fields) :: ds)
    else
      if cn = "Prop" then Except.error Err.typeError
      else readDescLoop ci cn cv (dinsert fields key value) rest

/-- The top-level loop of AvbInfo: keys before the Descriptors marker become
info properties; the token after the marker seeds ReadDescriptors (next(gen)
raising StopIteration when the stream ends there). -/
def parseTokens : PyDict String → List Token → Except Err (PyDict String × List Descriptor)
  | info, [] => Except.ok (info, [])
  | info, (_, key, value) :: rest =>
    if key = "Descriptors" then
      match rest with
      | [] => Except.error Err.stopIteration
      | (i2, k2, v2) :: rest2 =>
        match readDescLoop i2 k2 v2 [] rest2 with
        | Except.error e => Except.error e
        | Except.ok ds => Except.ok (info, ds)
    else parseTokens (dinsert info key value) rest

/-- Parsing a list of report lines. -/
def parseLines (lines : List String) : Except Err (PyDict String × List Descriptor) :=
  parseTokens [] (tokenizeLines lines)

/-- Parsing a whole report text (output.split of the newline). -/
def parseOutput (output : String) : Except Err (PyDict String × List Descriptor) :=
  parseLines ((splitOnChar (Char.ofNat 10) output.toList).map String.mk)

/-- The tokens that start a new descriptor: the first token always does, and
afterwards exactly the tokens whose indent is at most the previous starting
token's indent. -/
def descStarts (ci : String) : List Token → List Token
  | [] => []
  | (indent, key, value) :: rest =>
    if strLe indent ci then (indent, key, value) :: descStarts indent rest
    else descStarts ci rest

/-- The exit-code gate of RunCommand: any code outside the expected set is a
fatal assertion. -/
def runCommandGate (expected : List Nat) (retCode : Nat) : Except Err Unit :=
  if retCode ∈ expected then Except.ok ()
  else Except.error (Err.assertionError "Failed to execute")

/-- AvbInfo after the avbtool info_image run, given the captured output and
exit code: code 1 means the image carries no metadata and yields (None, None);
code 0 parses the report; anything else is fatal inside RunCommand. -/
def AvbInfo (output : String) (retCode : Nat) :
    Except Err (Option (PyDict String × List Descriptor)) :=
  match runCommandGate [0, 1] retCode with
  | Except.error e => Except.error e
  | Except.ok _ =>
    if retCode = 1 then Except.ok none
    else
      match parseOutput output with
      | Except.error e => Except.error e
      | Except.ok r => Except.ok (some r)

/-! ## Version validation (validate_avb_version, lines 360-371) -/

/-- The index of the last dot of a character list (str.rfind). -/
def rfindDot (cs : List Char) : Option Nat :=
  (cs.reverse.findIdx? (fun c => c = '.')).map (fun j => cs.length - 1 - j)

/-- s[0:s.rfind(dot)]: cut at the last dot; s[0:-1] when there is none. -/
def truncAtLastDot (s : String) : String :=
  match rfindDot s.toList with
  | some i => String.mk (s.toList.take i)
  | none => String.mk (s.toList.take (s.toList.length - 1))

/-- stdout.split(space)[1].strip() then the cut at the last dot: the running
avbtool version reduced to major.minor. -/
def parseToolVersion (stdout : String) : Except Err String :=
  match (splitOnChar ' ' stdout.toList).get? 1 with
  | none => Except.error Err.indexError
  | some w => Except.ok (truncAtLastDot (String.mk (pyStrip w)))

/-- The literal part of the bootconfig search pattern, with none standing for
the two unescaped regex dots (each matching any character but a newline). -/
def avbVersionPat : List (Option Char) :=
  ("androidboot".toList.map some) ++ [none] ++ ("vbmeta".toList.map some) ++ [none] ++
    ("avb_version = \"".toList.map some)

/-- Matching the pattern against a prefix of the text; returns the remainder. -/
def matchPat : List (Option Char) → List Char → Option (List Char)
  | [], cs => some cs
  | _ :: _, [] => none
  | p :: ps, c :: cs =>
    match p with
    | none => if c = '\n' then none else matchPat ps cs
    | some ch => if ch = c then matchPat ps cs else none

/-- The ([^\x22]*)\x22 tail of the pattern: capture up to the closing quote. -/
def captureQuoted (cs : List Char) : Option String :=
  match cs.dropWhile (fun c => c ≠ '"') with
  | [] => none
  | _ :: _ => some (String.mk (cs.takeWhile (fun c => c ≠ '"')))

/-- re.search of the version pattern in the bootconfig text: the first position
where the pattern with a quoted capture matches. -/
def searchAvbVersion : List Char → Option String
  | [] => none
  | c :: rest =>
    match matchPat avbVersionPat (c :: rest) with
    | some after =>
      match captureQuoted after with
      | some v => some v
      | none => searchAvbVersion rest
    | none => searchAvbVersion rest

/-- Models validate_avb_version, given the captured stdout of avbtool version
and the bootconfig text: the current tool version is truncated to major.minor
and compared with the recorded string as-is. -/
def validate_avb_version (versionStdout bootconfigs : String) : Except Err Unit :=
  match parseToolVersion versionStdout with
  | Except.error e => Except.error e
  | Except.ok avbVersionCurr =>
    match searchAvbVersion bootconfigs.toList with
    | none => Except.error Err.attributeError
    | some avbVersionBc =>
      if avbVersionCurr ≠ avbVersionBc then
        Except.error (Err.exception "AVB version mismatch")
      else Except.ok ()

/-- The validation step as guarded by --do_not_validate_avb_version. -/
def maybe_validate_avb_version (doNotValidate : Bool)
    (versionStdout bootconfigs : String) : Except Err Unit :=
  if doNotValidate then Except.ok ()
  else validate_avb_version versionStdout bootconfigs

/-- The raw tool version string as the code reads it from the stdout. -/
def toolVersionRaw (stdout : String) : Option String :=
  ((splitOnChar ' ' stdout.toList).get? 1).map (fun w => String.mk (pyStrip w))

/-- Modelled from the spec: the recorded and the current tool versions compared
on major.minor only (BOTH truncated at their last dot). -/
def versionsDifferMajorMinor (versionStdout bootconfigs : String) : Option Bool :=
  match toolVersionRaw versionStdout, searchAvbVersion bootconfigs.toList with
  | some curr, some bc => some (decide (truncAtLastDot curr ≠ truncAtLastDot bc))
  | _, _ => none

theorem readDescLoop_characterization (toks : List Token) (ci cn cv : String)
    (fields : PyDict String) :
    readDescLoop ci cn cv fields toks =
      if cn = "Prop" ∧ toks.takeWhile (fun t => strLt ci t.1) ≠ [] then
        Except.error Err.typeError
      else
        match toks.dropWhile (fun t => strLt ci t.1) with
        | [] => Except.ok [(cn, mkDescriptor cn cv
            ((toks.takeWhile (fun t => strLt ci t.1)).foldl
              (fun m t => dinsert m t.2.1 t.2.2) fields))]
        | (i2, k2, v2) :: r2 =>
          match readDescLoop i2 k2 v2 [] r2 with
          | Except.error e => Except.error e
          | Except.ok ds =>
            Except.ok ((cn, mkDescriptor cn cv
              ((toks.takeWhile (fun t => strLt ci t.1)).foldl
                (fun m t => dinsert m t.2.1 t.2.2) fields)) :: ds) := by
  induction toks generalizing fields with
  | nil => simp [readDescLoop]
  | cons t rest ih =>
    obtain ⟨i, k, v⟩ := t
    by_cases hle : strLe i ci = true
    · have htw : List.takeWhile (fun t : Token => strLt ci t.1) ((i, k, v) :: rest) = [] := by
        rw [List.takeWhile_cons]
        simp [strLt_eq_not_strLe, hle]
      have hdw : List.dropWhile (fun t : Token => strLt ci t.1) ((i, k, v) :: rest) =
          (i, k, v) :: rest := by
        rw [List.dropWhile_cons]
        simp [strLt_eq_not_strLe, hle]
      rw [htw, hdw]
      simp only [readDescLoop, if_pos hle]
      simp
    · have hfalse : strLe i ci = false := by
        cases h : strLe i ci
        · rfl
        · exact absurd h hle
      have htw : List.takeWhile (fun t : Token => strLt ci t.1) ((i, k, v) :: rest) =
          (i, k, v) :: List.takeWhile (fun t : Token => strLt ci t.1) rest := by
        rw [List.takeWhile_cons]
        simp [strLt_eq_not_strLe, hfalse]
      have hdw : List.dropWhile (fun t : Token => strLt ci t.1) ((i, k, v) :: rest) =
          List.dropWhile (fun t : Token => strLt ci t.1) rest := by
        rw [List.dropWhile_cons]
        simp [strLt_eq_not_strLe, hfalse]
      by_cases hcn : cn = "Prop"
      · rw [htw]
        simp [readDescLoop, hle, hcn]
      · have hstep : readDescLoop ci cn cv fields ((i, k, v) :: rest) =
            readDescLoop ci cn cv (dinsert fields k v) rest := by
          simp [readDescLoop, hle, hcn]
        rw [hstep, ih (dinsert fields k v), htw, hdw]
        simp [hcn]

theorem readDescLoop_names (toks : List Token) :
    ∀ (ci cn cv : String) (fields : PyDict String) (ds : List Descriptor),
      readDescLoop ci cn cv fields toks = Except.ok ds →
      ds.map Prod.fst = cn :: (descStarts ci toks).map (fun t => t.2.1) := by
  induction toks with
  | nil =>
    intro ci cn cv fields ds h
    simp only [readDescLoop] at h
    injection h with h2
    subst h2
    simp [descStarts]
  | cons t rest ih =>
    intro ci cn cv fields ds h
    obtain ⟨i, k, v⟩ := t
    by_cases hle : strLe i ci = true
    · simp only [readDescLoop, if_pos hle] at h
      split at h
      · simp at h
      next ds2 hds2 =>
        injection h with h2
        subst h2
        simp only [descStarts, if_pos hle, List.map_cons]
        rw [ih i k v [] ds2 hds2]
    · simp only [readDescLoop, if_neg hle] at h
      by_cases hcn : cn = "Prop"
      · rw [if_pos hcn] at h
        simp at h
      · rw [if_neg hcn] at h
        simp only [descStarts, if_neg hle]
        exact ih ci cn cv _ ds h

theorem parseLines_skips_unmatched {l : String} (h : lineToken l.toList = none)
    (pre post : List String) :
    parseLines (pre ++ l :: post) = parseLines (pre ++ post) := by
  have ht : tokenizeLines (pre ++ l :: post) = tokenizeLines (pre ++ post) := by
    simp [tokenizeLines, List.filterMap_append, List.filterMap_cons,
      show lineToken l.data = none from h]
  rw [parseLines, parseLines, ht]

/-- C8. The parser emits descriptors in source order and attaches key/value
lines by the indentation rule: (a) the descriptor loop consumes precisely the
following tokens of strictly greater indent as fields of the current (= nearest
preceding) descriptor, and the first token of less-or-equal indent starts the
next descriptor; (b) the emitted descriptor names are the descriptor-starting
tokens, in source order; (c) a line that does not match the key/value pattern
is skipped without error and does not affect the parse; (d) parsing the same
lines twice yields identical results. -/
theorem C8_parser_structure :
    (∀ (toks : List Token) (ci cn cv : String) (fields : PyDict String),
      readDescLoop ci cn cv fields toks =
        if cn = "Prop" ∧ toks.takeWhile (fun t => strLt ci t.1) ≠ [] then
          Except.error Err.typeError
        else
          match toks.dropWhile (fun t => strLt ci t.1) with
          | [] => Except.ok [(cn, mkDescriptor cn cv
              ((toks.takeWhile (fun t => strLt ci t.1)).foldl
                (fun m t => dinsert m t.2.1 t.2.2) fields))]
          | (i2, k2, v2) :: r2 =>
            match readDescLoop i2 k2 v2 [] r2 with
            | Except.error e => Except.error e
            | Except.ok ds =>
              Except.ok ((cn, mkDescriptor cn cv
                ((toks.takeWhile (fun t => strLt ci t.1)).foldl
                  (fun m t => dinsert m t.2.1 t.2.2) fields)) :: ds)) ∧
    (∀ (toks : List Token) (ci cn cv : String) (fields : PyDict String)
        (ds : List Descriptor),
      readDescLoop ci cn cv fields toks = Except.ok ds →
      ds.map Prod.fst = cn :: (descStarts ci toks).map (fun t => t.2.1)) ∧
    (∀ l : String, lineToken l.toList = none → ∀ pre post,
      parseLines (pre ++ l :: post) = parseLines (pre ++ post)) ∧
    (∀ (lines : List String) r1 r2,
      parseLines lines = r1 → parseLines lines = r2 → r1 = r2) :=
  ⟨readDescLoop_characterization,
    readDescLoop_names,
    fun _ h pre post => parseLines_skips_unmatched h pre post,
    fun _ _ _ h1 h2 => h1.symm.trans h2⟩

/-- Witness for C8 at concrete inputs: a two-token descriptor section (one
field line followed by a Prop descriptor), a skipped garbage line, and a
repeated parse. -/
theorem C8_witness :
    ([("Hash descriptor", DescValue.map [("Salt", "x")]),
        ("Prop", DescValue.str "a")].map Prod.fst =
      "Hash descriptor" ::
        (descStarts "  " [("    ", "Salt", "x"), ("  ", "Prop", "a")]).map
          (fun t => t.2.1)) ∧
    parseLines (["A: 1"] ++ "garbage" :: ["B: 2"]) = parseLines (["A: 1"] ++ ["B: 2"]) ∧
    parseLines ["A: 1"] = parseLines ["A: 1"] := by
  obtain ⟨hchar, hnames, hskip, hdet⟩ := C8_parser_structure
  exact ⟨hnames [("    ", "Salt", "x"), ("  ", "Prop", "a")] "  " "Hash descriptor" "" []
      [("Hash descriptor", DescValue.map [("Salt", "x")]), ("Prop", DescValue.str "a")]
      (by rfl),
    hskip "garbage" (by rfl) ["A: 1"] ["B: 2"],
    hdet ["A: 1"] (parseLines ["A: 1"]) (parseLines ["A: 1"]) rfl rfl⟩

/-- C9. Exit code 1 from avbtool info_image yields the no-metadata result
(None, None) without error, for any captured output; every exit code other
than 0 and 1 is a fatal RunCommand assertion. -/
theorem C9_no_metadata :
    (∀ output : String, AvbInfo output 1 = Except.ok none) ∧
    (∀ (output : String) (rc : Nat), rc ≠ 0 → rc ≠ 1 →
      AvbInfo output rc = Except.error (Err.assertionError "Failed to execute")) := by
  constructor
  · intro output
    rfl
  · intro output rc h0 h1
    simp [AvbInfo, runCommandGate, h0, h1]

/-- Witness for C9 at exit codes 1 and 2. -/
theorem C9_witness :
    AvbInfo "any" 1 = Except.ok none ∧
      AvbInfo "any" 2 = Except.error (Err.assertionError "Failed to execute") := by
  obtain ⟨h1, h2⟩ := C9_no_metadata
  exact ⟨h1 "any", h2 "any" 2 (by decide) (by decide)⟩

/-- C10 counterexample. The bootconfig records the very version the tool
reports ("1.2.0" both sides), so compared on major.minor they agree, yet
validation raises: the code truncates only the current tool's version and
compares it with the recorded string as-is. -/
theorem C10_counterexample :
    maybe_validate_avb_version false "avbtool 1.2.0"
        "androidboot.vbmeta.avb_version = \"1.2.0\"" =
      Except.error (Err.exception "AVB version mismatch") ∧
      versionsDifferMajorMinor "avbtool 1.2.0"
        "androidboot.vbmeta.avb_version = \"1.2.0\"" = some false :=
  ⟨by rfl, by rfl⟩

/-- C10 as amended. With validation enabled, the update fails exactly when the
recorded bootconfig string differs from the current tool's version truncated at
its last dot (so the recorded value must be exactly the tool's major.minor, not
merely agree with it on major.minor); with the suppression flag no comparison
happens and the step succeeds. -/
theorem C10_amended_version_check :
    (∀ (versionStdout bootconfigs cv bv : String),
      parseToolVersion versionStdout = Except.ok cv →
      searchAvbVersion bootconfigs.toList = some bv →
      ((∃ e, maybe_validate_avb_version false versionStdout bootconfigs =
          Except.error e) ↔ cv ≠ bv)) ∧
    (∀ versionStdout bootconfigs : String,
      maybe_validate_avb_version true versionStdout bootconfigs = Except.ok ()) := by
  constructor
  · intro vs bc cv bv hcv hbv
    simp only [maybe_validate_avb_version, validate_avb_version, hcv, hbv,
      Bool.false_eq_true, if_false]
    by_cases h : cv = bv
    · simp [h]
    · simp [h]
  · intro vs bc
    rfl

/-- Witness for C10's amended theorem: matching major.minor strings pass,
and the suppressed mode returns at once. -/
theorem C10_witness :
    ((∃ e, maybe_validate_avb_version false "avbtool 1.2.0"
        "androidboot.vbmeta.avb_version = \"1.2\"" = Except.error e) ↔
      ("1.2" : String) ≠ "1.2") ∧
      maybe_validate_avb_version true "avbtool 1.2.0"
        "androidboot.vbmeta.avb_version = \"1.2\"" = Except.ok () := by
  obtain ⟨h1, h2⟩ := C10_amended_version_check
  exact ⟨h1 "avbtool 1.2.0" "androidboot.vbmeta.avb_version = \"1.2\"" "1.2" "1.2"
    (by rfl) (by rfl), h2 _ _⟩

end SignVirtApex
